import Mathlib

/-!
# arcbench: the benchmark runner of `main.go`

A shallow embedding of `runner.run` and the functions it calls
(`createOrUpdateTriggerFile`, `getEphemeralRunners`, `getEphemeralRunnerPods`,
`kubectl`, `git`, `runCommand`), followed by theorems about them.

The program talks to the outside world (clock, file system, `git`, `kubectl`,
the logger).  The outside world is a `Backend σ`: a state type `σ` together with
one transition function per operating-system call.  Every call the program
makes is appended to a trace of `Event`s, so the order and the number of side
effects can be stated.  The two `for { ... }` loops of `run` have no bound in
the source; they are modelled with a fuel argument that counts loop
iterations, and `LoopExit.outOfFuel` means "still polling".

Functions of the Go standard library that the program calls
(`strconv.Atoi`, `strconv.Itoa`, `filepath.Join`) are modelled from their
documented behaviour; `json.Unmarshal` and `Time.Format` are parameters of
the backend.  File contents are Lean strings; `strconv.Atoi` classifies each
byte as an ASCII digit, a sign or something else, and every byte of a
non-ASCII character is "something else".
-/

namespace Arcbench

/-! ## Integers of type `int` -/

/-- Go `strconv`: `const intSize = 32 << (^uint(0) >> 63)`; the shift amount is
`1` on a 64-bit platform and `0` on a 32-bit one. -/
def intSize (is64 : Bool) : Nat := 32 <<< (if is64 then 1 else 0)

/-- Two's-complement wrap-around of a mathematical integer into a signed
integer of `w` bits (what Go's `n++` does on overflow). -/
def wrapInt (w : Nat) (z : Int) : Int :=
  (z + 2 ^ (w - 1)) % 2 ^ w - 2 ^ (w - 1)

/-! ## `strconv.Atoi` and `strconv.Itoa` -/

/-- The two causes carried by a `*strconv.NumError`: `ErrSyntax`, `ErrRange`. -/
inductive NumError where
  | invalidSyntax
  | outOfRange
  deriving DecidableEq, Repr

/-- `strconv.ParseUint`, base 10: `cutoff = maxUint64/10 + 1`. -/
def cutoff64 : Nat := (2 ^ 64 - 1) / 10 + 1

/-- The digit loop of `strconv.ParseUint(s, 10, bitSize)` on the remaining
bytes, `n` being the `uint64` accumulated so far and `maxVal = 1<<bitSize - 1`.
A byte that is not `'0'..'9'` is a syntax error (a letter has digit value
`>= 10 = base`); overflow of `n*10` or of `n*10 + d` is a range error. -/
def parseUintLoop (maxVal : Nat) : List Char → Nat → Except NumError Nat
  | [], n => .ok n
  | c :: cs, n =>
    if 48 ≤ c.toNat ∧ c.toNat ≤ 57 then
      if n ≥ cutoff64 then .error .outOfRange
      else
        let n10 := n * 10 % 2 ^ 64
        let n1 := (n10 + (c.toNat - 48)) % 2 ^ 64
        if n1 < n10 ∨ n1 > maxVal then .error .outOfRange
        else parseUintLoop maxVal cs n1
    else .error .invalidSyntax

/-- `strconv.ParseUint(s, 10, 0)`: the empty string is a syntax error. -/
def parseUint (is64 : Bool) (s : List Char) : Except NumError Nat :=
  if s = [] then .error .invalidSyntax
  else parseUintLoop (2 ^ intSize is64 - 1) s 0

/-- `strconv.ParseInt(s, 10, 0)`: one optional leading sign, then
`ParseUint`, then the range check against `cutoff = 1 << (bitSize-1)`. -/
def parseInt (is64 : Bool) (s : List Char) : Except NumError Int :=
  match s with
  | [] => .error .invalidSyntax
  | c :: cs =>
    let neg := decide (c = '-')
    let body := if c = '+' ∨ c = '-' then cs else c :: cs
    match parseUint is64 body with
    | .error e => .error e
    | .ok un =>
      let cutoff := 2 ^ (intSize is64 - 1)
      if !neg && decide (un ≥ cutoff) then .error .outOfRange
      else if neg && decide (un > cutoff) then .error .outOfRange
      else .ok (if neg then -(un : Int) else (un : Int))

/-- `strconv.Atoi(s)`.  The fast path that Atoi takes for short inputs returns
the same value or the same error as `ParseInt(s, 10, 0)`, which is what is
modelled here. -/
def atoi (is64 : Bool) (s : String) : Except NumError Int :=
  parseInt is64 s.data

/-- The byte `'0' + d`. -/
def digitByte (d : Nat) : Char := Char.ofNat (d + 48)

/-- `strconv.formatBits` in base 10: the decimal digits of `u`, most
significant first, produced from the least significant end by repeated
division; `fuel` bounds the number of divisions. -/
def formatBits : Nat → Nat → List Char → List Char
  | 0, u, acc => digitByte (u % 10) :: acc
  | fuel + 1, u, acc =>
    if u < 10 then digitByte u :: acc
    else formatBits fuel (u / 10) (digitByte (u % 10) :: acc)

/-- `strconv.Itoa(i)`, that is `FormatInt(int64(i), 10)`: a `-` for a
negative number, then the digits of the magnitude. -/
def itoa (z : Int) : String :=
  if z < 0 then ⟨'-' :: formatBits z.natAbs z.natAbs []⟩
  else ⟨formatBits z.toNat z.toNat []⟩

/-! ## `filepath.Join` (Unix) -/

/-- Split a path at every `/`. -/
def splitSlash : List Char → List (List Char)
  | [] => [[]]
  | c :: cs =>
    match splitSlash cs with
    | [] => [[c]]
    | h :: t => if c = '/' then [] :: h :: t else (c :: h) :: t

/-- The element-wise part of `filepath.Clean`: empty elements and `.` are
dropped, `..` removes the element before it (or is dropped at the root, or is
kept when nothing precedes it in a relative path).  `acc` is the cleaned
path so far, last element first. -/
def cleanElems (rooted : Bool) : List (List Char) → List (List Char) → List (List Char)
  | [], acc => acc.reverse
  | c :: cs, acc =>
    if c = [] ∨ c = ['.'] then cleanElems rooted cs acc
    else if c = ['.', '.'] then
      match acc with
      | [] => if rooted then cleanElems rooted cs [] else cleanElems rooted cs [c]
      | top :: rest =>
        if top = ['.', '.'] then cleanElems rooted cs (c :: acc)
        else cleanElems rooted cs rest
    else cleanElems rooted cs (c :: acc)

/-- `filepath.Clean` on Unix. -/
def filepathClean (p : String) : String :=
  if p = "" then "."
  else
    let rooted := decide (p.data.head? = some '/')
    let body := List.intercalate ['/'] (cleanElems rooted (splitSlash p.data) [])
    if rooted then ⟨'/' :: body⟩
    else if body = [] then "."
    else ⟨body⟩

/-- `filepath.Join` on Unix: leading empty elements are skipped, the rest is
joined with `/` and cleaned; the result is empty when every element is. -/
def filepathJoin (elem : List String) : String :=
  match elem.dropWhile (fun e => decide (e = "")) with
  | [] => ""
  | rest => filepathClean ⟨List.intercalate ['/'] (rest.map String.data)⟩

/-! ## Data model -/

/-- The struct `ephemeralRunner`: `metadata.name`. -/
structure ephemeralRunner where
  name : String
  deriving DecidableEq, Repr

/-- The struct `pod`: `metadata.name`. -/
structure pod where
  name : String
  deriving DecidableEq, Repr

/-- The struct `runner`: the benchmark's configuration. -/
structure runner where
  output : String
  controllerNamespace : String
  runnerNamespace : String
  tempDir : String
  sourceRepo : String
  triggerFile : String
  triggers : Int
  deriving DecidableEq, Repr

/-- What `os.ReadFile` returns: the content, an error for which
`os.IsNotExist` holds, or another error. -/
inductive ReadResult where
  | content (data : String)
  | notExist
  | failed (cause : String)
  deriving DecidableEq, Repr

/-- The errors `run` can return, one constructor per `fmt.Errorf` format (or
propagated error) of the source. -/
inductive Err where
  | sourceRepoRequired
  | mkdirFailed (cause : String)
  | readFailed (cause : String)
  | parseFailed (cause : NumError)
  | writeFailed (cause : String)
  | command (name arg0 cause output : String)
  | unmarshalRunners (cause : String)
  | unmarshalPods (cause : String)
  deriving DecidableEq, Repr

/-- The lines `run` prints with `log.Printf`. -/
inductive LogLine where
  | pull (repo : String)
  | clone (repo dir : String)
  | trigger (file : String)
  | waitingCreation
  | observed (runners pods : Nat)
  | stillWaiting
  | elapsed (d : Int)
  deriving DecidableEq, Repr

/-- One call to the outside world, with what it returned. -/
inductive Event where
  | now (t : Nat)
  | mkdirAll (path : String) (err : Option String)
  | stat (path : String) (found : Bool)
  | readFile (path : String) (res : ReadResult)
  | writeFile (path content : String) (err : Option String)
  | exec (name : String) (args : List String) (out : String) (err : Option String)
  | sleep (seconds : Nat)
  | log (line : LogLine)
  deriving DecidableEq, Repr

/-- The outside world: a state `σ` and one transition per system call.
`is64` is the platform's word size, `formatTime` is
`Time.Format("20060102150405")`, `osTempDir` is `os.TempDir()`,
`combinedOutput` is `exec.Command(name, args...).CombinedOutput()` (output and
error), and the two `unmarshal` functions are `json.Unmarshal` into an
`ephemeralRunnerList` and a `podList`, returning `Items`. -/
structure Backend (σ : Type) where
  is64 : Bool
  now : σ → Nat × σ
  formatTime : Nat → String
  osTempDir : String
  mkdirAll : String → σ → Option String × σ
  stat : String → σ → Bool × σ
  readFile : String → σ → ReadResult × σ
  writeFile : String → String → σ → Option String × σ
  combinedOutput : String → List String → σ → (String × Option String) × σ
  sleep : Nat → σ → σ
  log : LogLine → σ → σ
  unmarshalRunners : String → Except String (List ephemeralRunner)
  unmarshalPods : String → Except String (List pod)

/-- The state of a run: the outside world and the calls made so far, oldest
first. -/
structure St (σ : Type) where
  world : σ
  trace : List Event

variable {σ : Type}

/-- Move to world `w`, recording event `e`. -/
def St.record (s : St σ) (w : σ) (e : Event) : St σ :=
  ⟨w, s.trace ++ [e]⟩

/-! ## System calls, recorded -/

/-- `time.Now()` (also the clock reading inside `time.Since`). -/
def timeNow (B : Backend σ) (s : St σ) : Nat × St σ :=
  let (t, w) := B.now s.world
  (t, s.record w (.now t))

/-- `os.MkdirAll(path, 0755)`. -/
def mkdirAll (B : Backend σ) (path : String) (s : St σ) : Option String × St σ :=
  let (err, w) := B.mkdirAll path s.world
  (err, s.record w (.mkdirAll path err))

/-- `os.Stat(path)`: whether `err == nil`. -/
def stat (B : Backend σ) (path : String) (s : St σ) : Bool × St σ :=
  let (found, w) := B.stat path s.world
  (found, s.record w (.stat path found))

/-- `os.ReadFile(path)`. -/
def readFile (B : Backend σ) (path : String) (s : St σ) : ReadResult × St σ :=
  let (res, w) := B.readFile path s.world
  (res, s.record w (.readFile path res))

/-- `os.WriteFile(path, content, 0644)`. -/
def writeFile (B : Backend σ) (path content : String) (s : St σ) : Option String × St σ :=
  let (err, w) := B.writeFile path content s.world
  (err, s.record w (.writeFile path content err))

/-- `time.Sleep(seconds * time.Second)`. -/
def sleep (B : Backend σ) (seconds : Nat) (s : St σ) : St σ :=
  s.record (B.sleep seconds s.world) (.sleep seconds)

/-- `log.Printf`. -/
def logLine (B : Backend σ) (line : LogLine) (s : St σ) : St σ :=
  s.record (B.log line s.world) (.log line)

/-! ## The program -/

/-- `runner.runCommand`: run the command; on failure the error carries the
command name, `args[0]`, the cause and the captured output.  (Every call
site passes at least one argument.) -/
def runner.runCommand (B : Backend σ) (name : String) (args : List String) (s : St σ) :
    Except Err String × St σ :=
  let (res, w) := B.combinedOutput name args s.world
  let s1 := s.record w (.exec name args res.1 res.2)
  match res.2 with
  | some cause => (.error (.command name (args.headD "") cause res.1), s1)
  | none => (.ok res.1, s1)

/-- `runner.kubectl`. -/
def runner.kubectl (B : Backend σ) (args : List String) (s : St σ) :
    Except Err String × St σ :=
  runner.runCommand B "kubectl" args s

/-- `runner.git`. -/
def runner.git (B : Backend σ) (args : List String) (s : St σ) :
    Except Err String × St σ :=
  runner.runCommand B "git" args s

/-- `runner.getEphemeralRunners`. -/
def runner.getEphemeralRunners (B : Backend σ) (r : runner) (s : St σ) :
    Except Err (List ephemeralRunner) × St σ :=
  match runner.kubectl B ["get", "ephemeralrunner", "-n", r.runnerNamespace, "-o", "json"] s with
  | (.error e, s1) => (.error e, s1)
  | (.ok out, s1) =>
    match B.unmarshalRunners out with
    | .error cause => (.error (.unmarshalRunners cause), s1)
    | .ok items => (.ok items, s1)

/-- `runner.getEphemeralRunnerPods`. -/
def runner.getEphemeralRunnerPods (B : Backend σ) (r : runner) (s : St σ) :
    Except Err (List pod) × St σ :=
  match runner.kubectl B ["get", "pod", "-n", r.runnerNamespace, "-o", "json"] s with
  | (.error e, s1) => (.error e, s1)
  | (.ok out, s1) =>
    match B.unmarshalPods out with
    | .error cause => (.error (.unmarshalPods cause), s1)
    | .ok items => (.ok items, s1)

/-- `runner.createOrUpdateTriggerFile`; `none` is Go's `nil` error. -/
def runner.createOrUpdateTriggerFile (B : Backend σ) (r : runner) (s : St σ) :
    Option Err × St σ :=
  let path := filepathJoin [r.tempDir, r.triggerFile]
  let (res, s1) := readFile B path s
  let read : Except Err String :=
    match res with
    | .content data => .ok data
    | .notExist => .ok "0"
    | .failed cause => .error (.readFailed cause)
  match read with
  | .error e => (some e, s1)
  | .ok content =>
    match atoi B.is64 content with
    | .error cause => (some (.parseFailed cause), s1)
    | .ok n =>
      let n1 := wrapInt (intSize B.is64) (n + 1)
      match writeFile B path (itoa n1) s1 with
      | (some cause, s2) => (some (.writeFailed cause), s2)
      | (none, s2) =>
        match runner.git B ["-C", r.tempDir, "add", r.triggerFile] s2 with
        | (.error e, s3) => (some e, s3)
        | (.ok _, s3) =>
          match runner.git B ["-C", r.tempDir, "commit", "-m", "Update " ++ r.triggerFile] s3 with
          | (.error e, s4) => (some e, s4)
          | (.ok _, s4) =>
            match runner.git B ["-C", r.tempDir, "push"] s4 with
            | (.error e, s5) => (some e, s5)
            | (.ok _, s5) => (none, s5)

/-- Lines 106-110 of `run`: the local variable `tempDir`. -/
def resolveTempDir (B : Backend σ) (r : runner) (s : St σ) : String × St σ :=
  if r.tempDir = "" then
    let (t, s1) := timeNow B s
    (filepathJoin [B.osTempDir, "arcbench", B.formatTime t], s1)
  else (r.tempDir, s)

/-- Lines 112-128 of `run`: create `tempDir`, then pull when `tempDir/.git`
exists and clone otherwise. -/
def syncRepo (B : Backend σ) (r : runner) (tempDir : String) (s : St σ) : Option Err × St σ :=
  match mkdirAll B tempDir s with
  | (some cause, s1) => (some (.mkdirFailed cause), s1)
  | (none, s1) =>
    match stat B (filepathJoin [tempDir, ".git"]) s1 with
    | (true, s2) =>
      match runner.git B ["-C", tempDir, "pull"] (logLine B (.pull r.sourceRepo) s2) with
      | (.error e, s3) => (some e, s3)
      | (.ok _, s3) => (none, s3)
    | (false, s2) =>
      match runner.git B ["clone", r.sourceRepo, tempDir]
          (logLine B (.clone r.sourceRepo tempDir) s2) with
      | (.error e, s3) => (some e, s3)
      | (.ok _, s3) => (none, s3)

/-- Lines 130-136 of `run`: `n` remaining iterations of the trigger loop. -/
def triggerLoop (B : Backend σ) (r : runner) : Nat → St σ → Option Err × St σ
  | 0, s => (none, s)
  | n + 1, s =>
    match runner.createOrUpdateTriggerFile B r (logLine B (.trigger r.triggerFile) s) with
    | (some e, s1) => (some e, s1)
    | (none, s1) => triggerLoop B r n s1

/-- How a polling loop ends: `break`, `return err`, or still polling when the
fuel ran out. -/
inductive LoopExit where
  | broke
  | failed (e : Err)
  | outOfFuel
  deriving DecidableEq, Repr

/-- Lines 138-155 of `run`: wait for the ephemeral runners to be created. -/
def riseLoop (B : Backend σ) (r : runner) : Nat → St σ → LoopExit × St σ
  | 0, s => (.outOfFuel, s)
  | fuel + 1, s =>
    match runner.getEphemeralRunners B r s with
    | (.error e, s1) => (.failed e, s1)
    | (.ok ephemeralRunners, s1) =>
      match runner.getEphemeralRunnerPods B r s1 with
      | (.error e, s2) => (.failed e, s2)
      | (.ok pods, s2) =>
        if ephemeralRunners.length > 0 ∨ pods.length > 0 then (.broke, s2)
        else riseLoop B r fuel (logLine B .waitingCreation s2)

/-- Lines 157-178 of `run`: wait for the ephemeral runners to be deleted. -/
def fallLoop (B : Backend σ) (r : runner) : Nat → St σ → LoopExit × St σ
  | 0, s => (.outOfFuel, s)
  | fuel + 1, s =>
    match runner.getEphemeralRunners B r s with
    | (.error e, s1) => (.failed e, s1)
    | (.ok ephemeralRunners, s1) =>
      match runner.getEphemeralRunnerPods B r s1 with
      | (.error e, s2) => (.failed e, s2)
      | (.ok pods, s2) =>
        if ephemeralRunners.length = 0 ∨ pods.length = 0 then (.broke, s2)
        else
          fallLoop B r fuel
            (sleep B 10
              (logLine B .stillWaiting
                (logLine B (.observed ephemeralRunners.length pods.length) s2)))

/-- What a run amounts to: it returned (`none` is the `nil` error), or it is
still polling when the fuel ran out. -/
inductive Outcome where
  | returned (err : Option Err)
  | polling
  deriving DecidableEq, Repr

/-- `runner.run`; each of the two polling loops may take `fuel` iterations. -/
def runner.run (B : Backend σ) (r : runner) (fuel : Nat) (s : St σ) : Outcome × St σ :=
  let (start, s0) := timeNow B s
  if r.sourceRepo = "" then (.returned (some .sourceRepoRequired), s0)
  else
    let (tempDir, s1) := resolveTempDir B r s0
    match syncRepo B r tempDir s1 with
    | (some e, s2) => (.returned (some e), s2)
    | (none, s2) =>
      match triggerLoop B r r.triggers.toNat s2 with
      | (some e, s3) => (.returned (some e), s3)
      | (none, s3) =>
        match riseLoop B r fuel s3 with
        | (.failed e, s4) => (.returned (some e), s4)
        | (.outOfFuel, s4) => (.polling, s4)
        | (.broke, s4) =>
          match fallLoop B r fuel s4 with
          | (.failed e, s5) => (.returned (some e), s5)
          | (.outOfFuel, s5) => (.polling, s5)
          | (.broke, s5) =>
            let (stop, s6) := timeNow B s5
            let elapsed : Int := (stop : Int) - (start : Int)
            (.returned none, logLine B (.elapsed elapsed) s6)

/-! ## A simulated backend

An in-memory world used to run the program on concrete inputs: a clock, a
file table, a script of replies for successive `kubectl` invocations and a
budget of `git` invocations that succeed. -/

/-- The state of the simulated world. -/
structure Sim where
  clock : Nat
  files : List (String × String)
  unreadable : List String
  gitDirs : List String
  gitBudget : Nat
  replies : List (String × Option String)
  deriving DecidableEq, Repr

/-- The simulated file read: a path listed as unreadable fails, a path in the
file table gives its content, any other path does not exist. -/
def Sim.read (w : Sim) (path : String) : ReadResult :=
  if path ∈ w.unreadable then .failed "permission denied"
  else
    match w.files.lookup path with
    | some data => .content data
    | none => .notExist

/-- The simulated command: `git` succeeds while the budget lasts and takes 5
clock ticks; any other command (`kubectl`) returns the next scripted reply
and takes 1 tick, failing once the script is used up. -/
def Sim.command (w : Sim) (name : String) : (String × Option String) × Sim :=
  if name = "git" then
    match w.gitBudget with
    | 0 => (("fatal", some "exit status 128"), { w with clock := w.clock + 5 })
    | b + 1 => (("", none), { w with clock := w.clock + 5, gitBudget := b })
  else
    match w.replies with
    | [] => (("", some "script exhausted"), w)
    | rep :: rest => (rep, { w with clock := w.clock + 1, replies := rest })

/-- The simulated backend on a 64-bit platform, for given JSON decoders. -/
def sim (decodeRunners : String → Except String (List ephemeralRunner))
    (decodePods : String → Except String (List pod)) : Backend Sim where
  is64 := true
  now := fun w => (w.clock, w)
  formatTime := fun t => itoa t
  osTempDir := "/tmp"
  mkdirAll := fun _ w => (none, w)
  stat := fun path w => (decide (path ∈ w.gitDirs), w)
  readFile := fun path w => (w.read path, w)
  writeFile := fun path data w =>
    (none, { w with files := (path, data) :: w.files.filter (fun f => decide (f.1 ≠ path)) })
  combinedOutput := fun name _ w => w.command name
  sleep := fun n w => { w with clock := w.clock + n }
  log := fun _ w => w
  unmarshalRunners := decodeRunners
  unmarshalPods := decodePods

/-- A stand-in for a kubectl reply's decoding in the simulated world: the
reply `!` does not decode, the empty reply is an empty listing, any other
reply is a listing of one item named by the reply. -/
def toyNames (out : String) : Except String (List String) :=
  if out = "!" then .error "invalid character"
  else if out = "" then .ok []
  else .ok [out]

/-- The toy decoder as a decoder of `ephemeralRunnerList`. -/
def toyRunners (out : String) : Except String (List ephemeralRunner) :=
  (toyNames out).map (List.map ephemeralRunner.mk)

/-- The toy decoder as a decoder of `podList`. -/
def toyPods (out : String) : Except String (List pod) :=
  (toyNames out).map (List.map pod.mk)

/-- The simulated backend with the toy decoders. -/
def toySim : Backend Sim := sim toyRunners toyPods

/-- The replies of successive `kubectl` invocations when every query succeeds
and poll iteration `i` gets the outputs `pairs[i]`: first the runner query,
then the pod query. -/
def scriptOf (pairs : List (String × String)) : List (String × Option String) :=
  pairs.flatMap (fun p => [(p.1, none), (p.2, none)])

/-- A configuration with a working directory. -/
def demoRunner : runner where
  output := ""
  controllerNamespace := "arc-systems"
  runnerNamespace := "arc-runners"
  tempDir := "/work"
  sourceRepo := "git@example.com:o/r.git"
  triggerFile := "trigger.txt"
  triggers := 2

/-- A simulated world with nothing on disk. -/
def demoWorld : Sim where
  clock := 0
  files := []
  unreadable := []
  gitDirs := []
  gitBudget := 100
  replies := []

/-! ## Vocabulary of the specification -/

/-- An ASCII digit `'0'..'9'`. -/
def IsDigit (c : Char) : Prop := 48 ≤ c.toNat ∧ c.toNat ≤ 57

instance (c : Char) : Decidable (IsDigit c) := by
  unfold IsDigit
  infer_instance

/-- The number a sequence of digits denotes in base ten, most significant
digit first. -/
def decimalValue (cs : List Char) : Nat :=
  cs.foldl (fun acc c => acc * 10 + (c.toNat - 48)) 0

/-- The text `s` is the decimal representation of the natural number `n`: one
or more digits, no sign, no leading zero (except for the single digit `0`),
denoting `n`. -/
def IsDecimalOf (s : String) (n : Nat) : Prop :=
  s.data ≠ [] ∧ (∀ c ∈ s.data, IsDigit c) ∧
    (s.data.head? = some '0' → s.data = ['0']) ∧ decimalValue s.data = n

instance (s : String) (n : Nat) : Decidable (IsDecimalOf s n) := by
  unfold IsDecimalOf
  infer_instance

/-- The text `s` is an integer literal that fits Go's `int`: an optional single
sign, then one or more digits (leading zeros allowed), denoting a value in
`[-2^(intSize-1), 2^(intSize-1) - 1]`. -/
def IsIntLiteral (is64 : Bool) (s : String) : Prop :=
  ∃ sign digits : List Char,
    s.data = sign ++ digits ∧ (sign = [] ∨ sign = ['+'] ∨ sign = ['-']) ∧
    digits ≠ [] ∧ (∀ c ∈ digits, IsDigit c) ∧
    (if sign = ['-'] then decimalValue digits ≤ 2 ^ (intSize is64 - 1)
     else decimalValue digits < 2 ^ (intSize is64 - 1))

/-- The calls `evs` that one mutation makes after reading and parsing the
trigger file, and the error `result` it returns: write the new content `v` to
`path`, then `git add`, `git commit`, `git push`, stopping at the first call
that fails and returning that call's error; `nil` when all four succeed. -/
def MutationSteps (r : runner) (path v : String) (evs : List Event) (result : Option Err) :
    Prop :=
  let add := ["-C", r.tempDir, "add", r.triggerFile]
  let commit := ["-C", r.tempDir, "commit", "-m", "Update " ++ r.triggerFile]
  let push := ["-C", r.tempDir, "push"]
  (∃ cause, evs = [.writeFile path v (some cause)] ∧ result = some (.writeFailed cause)) ∨
  (∃ o cause, evs = [.writeFile path v none, .exec "git" add o (some cause)] ∧
      result = some (.command "git" "-C" cause o)) ∨
  (∃ o1 o cause,
      evs = [.writeFile path v none, .exec "git" add o1 none,
        .exec "git" commit o (some cause)] ∧
      result = some (.command "git" "-C" cause o)) ∨
  (∃ o1 o2 o cause,
      evs = [.writeFile path v none, .exec "git" add o1 none, .exec "git" commit o2 none,
        .exec "git" push o (some cause)] ∧
      result = some (.command "git" "-C" cause o)) ∨
  (∃ o1 o2 o3,
      evs = [.writeFile path v none, .exec "git" add o1 none, .exec "git" commit o2 none,
        .exec "git" push o3 none] ∧
      result = none)

/-- The backend that differs from `B` only in that a missing file reads as a
file with content `0`. -/
def Backend.missingAsZero (B : Backend σ) : Backend σ :=
  { B with
    readFile := fun path w =>
      match B.readFile path w with
      | (.notExist, w1) => (.content "0", w1)
      | other => other }

/-- The calls of the rise-edge loop during the poll iterations that got the
outputs `pairs` and polled again: per iteration the runner query, the pod
query and the log line. -/
def risePolls (r : runner) (pairs : List (String × String)) : List Event :=
  pairs.flatMap (fun p =>
    [.exec "kubectl" ["get", "ephemeralrunner", "-n", r.runnerNamespace, "-o", "json"] p.1 none,
     .exec "kubectl" ["get", "pod", "-n", r.runnerNamespace, "-o", "json"] p.2 none,
     .log .waitingCreation])

/-- The kinds of calls to the outside world. -/
inductive Kind where
  | clock
  | dir
  | read
  | write
  | git
  | query
  | command
  | pause
  | logging
  deriving DecidableEq, Repr

/-- The kind of a recorded call; an invocation of `kubectl` is a cluster-state
query. -/
def Event.kind : Event → Kind
  | .now _ => .clock
  | .mkdirAll _ _ => .dir
  | .stat _ _ => .dir
  | .readFile _ _ => .read
  | .writeFile _ _ _ => .write
  | .exec name _ _ _ =>
    if name = "git" then .git else if name = "kubectl" then .query else .command
  | .sleep _ => .pause
  | .log _ => .logging

/-- The number of calls of kind `k` in a trace. -/
def countKind (k : Kind) (tr : List Event) : Nat :=
  tr.countP (fun e => decide (e.kind = k))

/-- From state `s` to state `s1` the program made only calls whose kinds are
in `K`. -/
def Adds (K : List Kind) (s s1 : St σ) : Prop :=
  ∃ evs, s1.trace = s.trace ++ evs ∧ ∀ e ∈ evs, e.kind ∈ K

/-- The error that the listing call recorded as event `e` returned, if it
returned one: the `kubectl` invocation failed, or its output did not decode
(`getEphemeralRunners` decodes the output of the `ephemeralrunner` query,
`getEphemeralRunnerPods` that of the `pod` query). -/
def listingError (B : Backend σ) (r : runner) : Event → Option Err
  | .exec name args out err =>
    if name = "kubectl" then
      match err with
      | some cause => some (.command name (args.headD "") cause out)
      | none =>
        if args = ["get", "ephemeralrunner", "-n", r.runnerNamespace, "-o", "json"] then
          match B.unmarshalRunners out with
          | .error cause => some (.unmarshalRunners cause)
          | .ok _ => none
        else if args = ["get", "pod", "-n", r.runnerNamespace, "-o", "json"] then
          match B.unmarshalPods out with
          | .error cause => some (.unmarshalPods cause)
          | .ok _ => none
        else none
    else none
  | _ => none

/-- The calls `evs` of a polling loop that ended with `exit`: when the loop
returned an error, the last call is a listing call that returned that error
and no earlier listing call failed; otherwise no listing call failed. -/
def FailsLast (B : Backend σ) (r : runner) (evs : List Event) (exit : Option Err) : Prop :=
  match exit with
  | some e =>
    ∃ init ev, evs = init ++ [ev] ∧ (∀ x ∈ init, listingError B r x = none) ∧
      listingError B r ev = some e
  | none => ∀ x ∈ evs, listingError B r x = none

/-- The error a polling loop returned, if it returned one. -/
def LoopExit.error : LoopExit → Option Err
  | .failed e => some e
  | _ => none

/-- Every kind of call. -/
def allKinds : List Kind :=
  [.clock, .dir, .read, .write, .git, .query, .command, .pause, .logging]

/-! ## Lemmas on digits -/

theorem digitByte_toNat (d : Nat) (h : d < 10) : (digitByte d).toNat = d + 48 := by
  interval_cases d <;> rfl

theorem isDigit_digitByte (d : Nat) (h : d < 10) : IsDigit (digitByte d) := by
  unfold IsDigit
  rw [digitByte_toNat d h]
  omega

theorem decimalValue_snoc (xs : List Char) (c : Char) :
    decimalValue (xs ++ [c]) = decimalValue xs * 10 + (c.toNat - 48) := by
  simp [decimalValue, List.foldl_append]

theorem formatBits_acc (fuel : Nat) : ∀ (u : Nat) (acc : List Char),
    formatBits fuel u acc = formatBits fuel u [] ++ acc := by
  induction fuel with
  | zero => intro u acc; simp [formatBits]
  | succ f ih =>
    intro u acc
    by_cases hu : u < 10
    · simp [formatBits, hu]
    · simp only [formatBits, hu, if_false]
      rw [ih (u / 10) (digitByte (u % 10) :: acc), ih (u / 10) [digitByte (u % 10)]]
      simp

theorem formatBits_spec (fuel : Nat) : ∀ u : Nat, u ≤ fuel →
    formatBits fuel u [] ≠ [] ∧ (∀ c ∈ formatBits fuel u [], IsDigit c) ∧
    decimalValue (formatBits fuel u []) = u ∧
    (0 < u → (formatBits fuel u []).head? ≠ some '0') := by
  induction fuel with
  | zero =>
    intro u hu
    have h0 : u = 0 := by omega
    subst h0
    refine ⟨by simp [formatBits], ?_, by decide, by omega⟩
    intro c hc
    simp [formatBits] at hc
    subst hc
    exact isDigit_digitByte 0 (by omega)
  | succ f ih =>
    intro u hu
    by_cases hlt : u < 10
    · have hf : formatBits (f + 1) u [] = [digitByte u] := by simp [formatBits, hlt]
      rw [hf]
      refine ⟨by simp, ?_, ?_, ?_⟩
      · intro c hc
        simp at hc
        subst hc
        exact isDigit_digitByte u hlt
      · simp [decimalValue, digitByte_toNat u hlt]
      · intro hpos hhead
        simp at hhead
        have := congrArg Char.toNat hhead
        rw [digitByte_toNat u hlt] at this
        have h48 : ('0' : Char).toNat = 48 := rfl
        omega
    · have hf : formatBits (f + 1) u [] = formatBits f (u / 10) [] ++ [digitByte (u % 10)] := by
        simp only [formatBits, hlt, if_false]
        exact formatBits_acc f (u / 10) [digitByte (u % 10)]
      obtain ⟨hne, hdig, hval, hhead⟩ := ih (u / 10) (by omega)
      have hmod : u % 10 < 10 := Nat.mod_lt _ (by omega)
      rw [hf]
      refine ⟨by simp, ?_, ?_, ?_⟩
      · intro c hc
        rcases List.mem_append.mp hc with h | h
        · exact hdig c h
        · simp at h
          subst h
          exact isDigit_digitByte _ hmod
      · rw [decimalValue_snoc, hval, digitByte_toNat _ hmod]
        omega
      · intro _
        have hq : 0 < u / 10 := by omega
        have := hhead hq
        cases hq2 : formatBits f (u / 10) [] with
        | nil => exact absurd hq2 hne
        | cons a t =>
          rw [hq2] at this
          simpa using this

theorem itoa_natCast (m : Nat) : IsDecimalOf (itoa (m : Int)) m := by
  have hnot : ¬ ((m : Int) < 0) := by omega
  obtain ⟨hne, hdig, hval, hhead⟩ := formatBits_spec m m (le_refl m)
  unfold IsDecimalOf itoa
  simp only [hnot, if_false, Int.toNat_ofNat]
  refine ⟨hne, hdig, ?_, hval⟩
  intro h0
  rcases Nat.eq_zero_or_pos m with h | h
  · subst h
    rfl
  · exact absurd h0 (hhead h)

/-! ## Lemmas on `strconv.Atoi` -/

theorem cutoff64_eq : cutoff64 = 1844674407370955162 := by decide

theorem intSize_cases (is64 : Bool) : intSize is64 = 32 ∨ intSize is64 = 64 := by
  cases is64
  · left; rfl
  · right; rfl

theorem foldl_digits_ge (cs : List Char) : ∀ n : Nat,
    n ≤ cs.foldl (fun acc c => acc * 10 + (c.toNat - 48)) n := by
  induction cs with
  | nil => intro n; simp
  | cons c cs ih =>
    intro n
    simp only [List.foldl_cons]
    have := ih (n * 10 + (c.toNat - 48))
    omega

/-- On digits whose value fits, the loop of `ParseUint` returns the value. -/
theorem parseUintLoop_digits (maxVal : Nat) (hmax : maxVal < 2 ^ 64) (cs : List Char) :
    ∀ n : Nat, (∀ c ∈ cs, IsDigit c) →
      cs.foldl (fun acc c => acc * 10 + (c.toNat - 48)) n ≤ maxVal →
      parseUintLoop maxVal cs n = .ok (cs.foldl (fun acc c => acc * 10 + (c.toNat - 48)) n) := by
  induction cs with
  | nil => intro n _ _; simp [parseUintLoop]
  | cons c cs ih =>
    intro n hdig hle
    simp only [List.foldl_cons] at hle ⊢
    have hc : IsDigit c := hdig c (by simp)
    have hge := foldl_digits_ge cs (n * 10 + (c.toNat - 48))
    have h64 : (2 : Nat) ^ 64 = 18446744073709551616 := by norm_num
    rw [h64] at hmax
    unfold IsDigit at hc
    have hn : ¬ n ≥ cutoff64 := by rw [cutoff64_eq]; omega
    have h10 : n * 10 % 2 ^ 64 = n * 10 := by rw [h64]; omega
    have h1 : (n * 10 + (c.toNat - 48)) % 2 ^ 64 = n * 10 + (c.toNat - 48) := by rw [h64]; omega
    have hcond : ¬ (n * 10 + (c.toNat - 48) < n * 10 ∨ n * 10 + (c.toNat - 48) > maxVal) := by
      omega
    unfold parseUintLoop
    simp only [hc, and_self, if_true, hn, if_false, h10, h1, hcond]
    exact ih _ (fun c hc => hdig c (by simp [hc])) hle

/-- When the loop of `ParseUint` succeeds, every byte was a digit and the
result is the value they denote. -/
theorem parseUintLoop_ok (maxVal : Nat) (cs : List Char) :
    ∀ n m : Nat, parseUintLoop maxVal cs n = .ok m →
      (∀ c ∈ cs, IsDigit c) ∧ m = cs.foldl (fun acc c => acc * 10 + (c.toNat - 48)) n := by
  induction cs with
  | nil =>
    intro n m h
    simp [parseUintLoop] at h
    simp [h]
  | cons c cs ih =>
    intro n m h
    have h64 : (2 : Nat) ^ 64 = 18446744073709551616 := by norm_num
    unfold parseUintLoop at h
    by_cases hc : 48 ≤ c.toNat ∧ c.toNat ≤ 57
    · simp only [hc, and_self, if_true] at h
      by_cases hn : n ≥ cutoff64
      · simp [hn] at h
      · simp only [hn, if_false] at h
        split_ifs at h with hcond
        obtain ⟨hd, hm⟩ := ih _ m h
        rw [cutoff64_eq] at hn
        rw [h64] at hcond
        have hval : (n * 10 % 2 ^ 64 + (c.toNat - 48)) % 2 ^ 64 = n * 10 + (c.toNat - 48) := by
          rw [h64]; omega
        rw [hval] at hm
        refine ⟨?_, by simpa using hm⟩
        intro x hx
        rcases List.mem_cons.mp hx with rfl | hx
        · exact hc
        · exact hd x hx
    · simp [hc] at h

theorem isDigit_ne_sign (c : Char) (h : IsDigit c) : c ≠ '+' ∧ c ≠ '-' := by
  constructor
  · rintro rfl
    exact absurd h (by decide)
  · rintro rfl
    exact absurd h (by decide)

/-- `Atoi` on a string of digits whose value fits `int` returns that value. -/
theorem atoi_digits (is64 : Bool) (s : String) (n : Nat)
    (hne : s.data ≠ []) (hdig : ∀ c ∈ s.data, IsDigit c) (hval : decimalValue s.data = n)
    (hn : n < 2 ^ (intSize is64 - 1)) : atoi is64 s = .ok (n : Int) := by
  unfold atoi parseInt
  cases hs : s.data with
  | nil => exact absurd hs hne
  | cons c cs =>
    have hc : IsDigit c := hdig c (by simp [hs])
    obtain ⟨hplus, hminus⟩ := isDigit_ne_sign c hc
    have hmax : 2 ^ intSize is64 - 1 < 2 ^ 64 := by
      rcases intSize_cases is64 with h | h <;> rw [h] <;> norm_num
    have hfit : n ≤ 2 ^ intSize is64 - 1 := by
      rcases intSize_cases is64 with h | h <;> rw [h] at hn ⊢ <;> norm_num at hn ⊢ <;> omega
    have hloop := parseUintLoop_digits (2 ^ intSize is64 - 1) hmax (c :: cs) 0
      (by rw [← hs]; exact hdig) (by
        have : decimalValue (c :: cs) = n := by rw [← hs]; exact hval
        unfold decimalValue at this
        rw [this]; exact hfit)
    have hv : (c :: cs).foldl (fun acc c => acc * 10 + (c.toNat - 48)) 0 = n := by
      have : decimalValue (c :: cs) = n := by rw [← hs]; exact hval
      exact this
    rw [hv] at hloop
    simp only [hplus, hminus, or_self, if_false, decide_False, parseUint]
    simp only [List.cons_ne_nil, if_false, reduceCtorEq, hloop]
    simp [Nat.not_le.mpr hn]

/-- When `Atoi` succeeds, its input is an integer literal that fits `int`. -/
theorem atoi_ok_isIntLiteral (is64 : Bool) (s : String) (z : Int)
    (h : atoi is64 s = .ok z) : IsIntLiteral is64 s := by
  unfold atoi parseInt at h
  cases hs : s.data with
  | nil => rw [hs] at h; simp at h
  | cons c cs =>
    rw [hs] at h
    simp only at h
    cases hp : parseUint is64 (if c = '+' ∨ c = '-' then cs else c :: cs) with
    | error e => rw [hp] at h; simp at h
    | ok un =>
      rw [hp] at h
      simp only at h
      unfold parseUint at hp
      by_cases hbody : (if c = '+' ∨ c = '-' then cs else c :: cs) = []
      · simp [hbody] at hp
      · simp only [hbody, if_false] at hp
        obtain ⟨hdig, hun⟩ := parseUintLoop_ok _ _ 0 un hp
        have hval : decimalValue (if c = '+' ∨ c = '-' then cs else c :: cs) = un := hun.symm
        by_cases hminus : c = '-'
        · subst hminus
          simp only [or_true, if_true] at hbody hdig hval
          refine ⟨['-'], cs, by simp [hs], by simp, hbody, hdig, ?_⟩
          simp only [if_true, hval]
          by_contra hgt
          simp [Nat.not_le.mp hgt] at h
        · by_cases hplus : c = '+'
          · subst hplus
            simp only [true_or, if_true] at hbody hdig hval
            refine ⟨['+'], cs, by simp [hs], by simp, hbody, hdig, ?_⟩
            simp only [List.cons.injEq, and_true, hval]
            have : ¬ ('+' : Char) = '-' := by decide
            simp only [this, if_false]
            by_contra hge
            simp [Nat.not_lt.mp hge] at h
          · simp only [hplus, hminus, or_self, if_false] at hbody hdig hval
            refine ⟨[], c :: cs, by simp [hs], by simp, hbody, hdig, ?_⟩
            simp only [hval]
            have : ¬ (([] : List Char) = ['-']) := by simp
            simp only [this, if_false]
            by_contra hge
            simp [hminus, Nat.not_lt.mp hge] at h

/-! ## Lemmas on `createOrUpdateTriggerFile` -/

theorem wrapInt_fits (is64 : Bool) (m : Nat) (h : m < 2 ^ (intSize is64 - 1)) :
    wrapInt (intSize is64) (m : Int) = (m : Int) := by
  unfold wrapInt
  rcases intSize_cases is64 with hw | hw <;> rw [hw] at h ⊢ <;> norm_num at h ⊢ <;> omega

/-- After the trigger file was read in world `w` and parsed as `n`, a mutation
makes the calls described by `MutationSteps`; the calls, the returned error
and the final world depend only on `w`, on the parsed content and on how the
backend writes files and runs commands. -/
theorem mutation_shape (B : Backend σ) (r : runner) (w : σ) (c : String) (n : Int)
    (hparse : atoi B.is64 c = .ok n) :
    ∃ evs wf result,
      MutationSteps r (filepathJoin [r.tempDir, r.triggerFile])
        (itoa (wrapInt (intSize B.is64) (n + 1))) evs result ∧
      ∀ (B1 : Backend σ) (s : St σ) (res : ReadResult),
        B1.is64 = B.is64 → B1.writeFile = B.writeFile →
        B1.combinedOutput = B.combinedOutput →
        B1.readFile (filepathJoin [r.tempDir, r.triggerFile]) s.world = (res, w) →
        (res = .content c ∨ (res = .notExist ∧ c = "0")) →
        runner.createOrUpdateTriggerFile B1 r s =
          (result,
            ⟨wf, s.trace ++ .readFile (filepathJoin [r.tempDir, r.triggerFile]) res :: evs⟩) := by
  have hcontent : ∀ res : ReadResult, (res = .content c ∨ (res = .notExist ∧ c = "0")) →
      (match res with
      | .content data => (Except.ok data : Except Err String)
      | .notExist => .ok "0"
      | .failed cause => .error (.readFailed cause)) = .ok c := by
    intro res hres
    rcases hres with rfl | ⟨rfl, rfl⟩ <;> rfl
  rcases hw : B.writeFile (filepathJoin [r.tempDir, r.triggerFile])
    (itoa (wrapInt (intSize B.is64) (n + 1))) w with ⟨werr, w2⟩
  cases werr with
  | some cause =>
    refine ⟨_, w2, _, Or.inl ⟨cause, rfl, rfl⟩, ?_⟩
    intro B1 s res h64 hwf hco hread hres
    unfold runner.createOrUpdateTriggerFile readFile writeFile
    simp only [hread, hcontent res hres, h64, hparse, hwf, hw, St.record]
    simp
  | none =>
    rcases h1 : B.combinedOutput "git" ["-C", r.tempDir, "add", r.triggerFile] w2
      with ⟨⟨o1, e1⟩, w3⟩
    cases e1 with
    | some cause =>
      refine ⟨_, w3, _, Or.inr (Or.inl ⟨o1, cause, rfl, rfl⟩), ?_⟩
      intro B1 s res h64 hwf hco hread hres
      unfold runner.createOrUpdateTriggerFile readFile writeFile runner.git runner.runCommand
      simp only [hread, hcontent res hres, h64, hparse, hwf, hw, hco, h1, St.record]
      simp
    | none =>
      rcases h2 : B.combinedOutput "git"
        ["-C", r.tempDir, "commit", "-m", "Update " ++ r.triggerFile] w3 with ⟨⟨o2, e2⟩, w4⟩
      cases e2 with
      | some cause =>
        refine ⟨_, w4, _, Or.inr (Or.inr (Or.inl ⟨o1, o2, cause, rfl, rfl⟩)), ?_⟩
        intro B1 s res h64 hwf hco hread hres
        unfold runner.createOrUpdateTriggerFile readFile writeFile runner.git runner.runCommand
        simp only [hread, hcontent res hres, h64, hparse, hwf, hw, hco, h1, h2, St.record]
        simp
      | none =>
        rcases h3 : B.combinedOutput "git" ["-C", r.tempDir, "push"] w4 with ⟨⟨o3, e3⟩, w5⟩
        cases e3 with
        | some cause =>
          refine ⟨_, w5, _, Or.inr (Or.inr (Or.inr (Or.inl ⟨o1, o2, o3, cause, rfl, rfl⟩))), ?_⟩
          intro B1 s res h64 hwf hco hread hres
          unfold runner.createOrUpdateTriggerFile readFile writeFile runner.git
            runner.runCommand
          simp only [hread, hcontent res hres, h64, hparse, hwf, hw, hco, h1, h2, h3, St.record]
          simp
        | none =>
          refine ⟨_, w5, _, Or.inr (Or.inr (Or.inr (Or.inr ⟨o1, o2, o3, rfl, rfl⟩))), ?_⟩
          intro B1 s res h64 hwf hco hread hres
          unfold runner.createOrUpdateTriggerFile readFile writeFile runner.git
            runner.runCommand
          simp only [hread, hcontent res hres, h64, hparse, hwf, hw, hco, h1, h2, h3, St.record]
          simp

/-! ## Theorems on `createOrUpdateTriggerFile` -/

/-- C3, as amended: when the trigger file holds the decimal representation of
a natural number `n` and `n + 1` still fits Go's `int`
(`n + 1 < 2^(intSize-1)`), the mutation's next call after the read writes a
text that is the decimal representation of `n + 1` (digits only, no sign, no
leading zero); only `git` invocations follow, and when the mutation returns
`nil` that write succeeded. -/
theorem createOrUpdateTriggerFile_increments (B : Backend σ) (r : runner) (s : St σ)
    (c : String) (n : Nat) (w : σ)
    (hread : B.readFile (filepathJoin [r.tempDir, r.triggerFile]) s.world = (.content c, w))
    (hc : IsDecimalOf c n) (hn : n + 1 < 2 ^ (intSize B.is64 - 1)) :
    ∃ v err rest,
      (runner.createOrUpdateTriggerFile B r s).2.trace =
        s.trace ++ .readFile (filepathJoin [r.tempDir, r.triggerFile]) (.content c) ::
          .writeFile (filepathJoin [r.tempDir, r.triggerFile]) v err :: rest ∧
      IsDecimalOf v (n + 1) ∧
      (∀ e ∈ rest, ∃ args out cerr, e = .exec "git" args out cerr) ∧
      ((runner.createOrUpdateTriggerFile B r s).1 = none → err = none) := by
  obtain ⟨hne, hdig, -, hval⟩ := hc
  have hparse : atoi B.is64 c = .ok (n : Int) :=
    atoi_digits B.is64 c n hne hdig hval (by omega)
  obtain ⟨evs, wf, result, hsteps, hrun⟩ := mutation_shape B r w c n hparse
  have hrun1 := hrun B s (.content c) rfl rfl rfl hread (Or.inl rfl)
  have hv : wrapInt (intSize B.is64) ((n : Int) + 1) = ((n + 1 : Nat) : Int) := by
    have := wrapInt_fits B.is64 (n + 1) hn
    simpa using this
  rw [hv] at hsteps
  have hdec := itoa_natCast (n + 1)
  rw [hrun1]
  rcases hsteps with ⟨cause, rfl, rfl⟩ | ⟨o, cause, rfl, rfl⟩ | ⟨o1, o, cause, rfl, rfl⟩ |
    ⟨o1, o2, o, cause, rfl, rfl⟩ | ⟨o1, o2, o3, rfl, rfl⟩
  · exact ⟨_, _, [], rfl, hdec, by simp, by simp⟩
  · exact ⟨_, _, _, rfl, hdec, by simp, by simp⟩
  · refine ⟨_, _, _, rfl, hdec, ?_, by simp⟩
    intro e he
    simp only [List.mem_cons, List.mem_singleton, List.not_mem_nil, or_false] at he
    rcases he with rfl | rfl <;> exact ⟨_, _, _, rfl⟩
  · refine ⟨_, _, _, rfl, hdec, ?_, by simp⟩
    intro e he
    simp only [List.mem_cons, List.mem_singleton, List.not_mem_nil, or_false] at he
    rcases he with rfl | rfl | rfl <;> exact ⟨_, _, _, rfl⟩
  · refine ⟨_, _, _, rfl, hdec, ?_, by simp⟩
    intro e he
    simp only [List.mem_cons, List.mem_singleton, List.not_mem_nil, or_false] at he
    rcases he with rfl | rfl | rfl <;> exact ⟨_, _, _, rfl⟩

/-- Witness for C3: the trigger file holds `41`. -/
theorem createOrUpdateTriggerFile_increments_witness :
    IsDecimalOf "41" 41 ∧
    ∃ v err rest,
      (runner.createOrUpdateTriggerFile toySim demoRunner
        ⟨{ demoWorld with files := [("/work/trigger.txt", "41")] }, []⟩).2.trace =
        [] ++ .readFile (filepathJoin [demoRunner.tempDir, demoRunner.triggerFile])
            (.content "41") ::
          .writeFile (filepathJoin [demoRunner.tempDir, demoRunner.triggerFile]) v err ::
            rest ∧
      IsDecimalOf v (41 + 1) ∧
      (∀ e ∈ rest, ∃ args out cerr, e = .exec "git" args out cerr) ∧
      ((runner.createOrUpdateTriggerFile toySim demoRunner
        ⟨{ demoWorld with files := [("/work/trigger.txt", "41")] }, []⟩).1 = none →
        err = none) :=
  ⟨by decide,
    createOrUpdateTriggerFile_increments toySim demoRunner
      ⟨{ demoWorld with files := [("/work/trigger.txt", "41")] }, []⟩ "41" 41
      { demoWorld with files := [("/work/trigger.txt", "41")] } rfl (by decide) (by decide)⟩

/-- C3 as stated fails for large counters: on a 64-bit platform the content
`9223372036854775807` (the decimal representation of `2^63 - 1`) makes the
mutation succeed and write `-9223372036854775808`, which is not the decimal
representation of `2^63`. -/
theorem createOrUpdateTriggerFile_wraps_at_maxInt :
    IsDecimalOf "9223372036854775807" 9223372036854775807 ∧
    (runner.createOrUpdateTriggerFile toySim demoRunner
      ⟨{ demoWorld with files := [("/work/trigger.txt", "9223372036854775807")] }, []⟩).1
      = none ∧
    (runner.createOrUpdateTriggerFile toySim demoRunner
      ⟨{ demoWorld with files := [("/work/trigger.txt", "9223372036854775807")] }, []⟩).2.trace
      = [.readFile "/work/trigger.txt" (.content "9223372036854775807"),
         .writeFile "/work/trigger.txt" "-9223372036854775808" none,
         .exec "git" ["-C", "/work", "add", "trigger.txt"] "" none,
         .exec "git" ["-C", "/work", "commit", "-m", "Update trigger.txt"] "" none,
         .exec "git" ["-C", "/work", "push"] "" none] ∧
    ¬ IsDecimalOf "-9223372036854775808" (9223372036854775807 + 1) :=
  ⟨by decide, by decide, by decide, by decide⟩

/-- C4, as amended: when the existing trigger file's content is not an integer
literal that fits Go's `int` (an optional `+` or `-`, then one or more digits,
within range), the mutation returns the parse error and its only call is the
read: nothing is written and no `git` command runs. -/
theorem createOrUpdateTriggerFile_rejects (B : Backend σ) (r : runner) (s : St σ)
    (c : String) (w : σ)
    (hread : B.readFile (filepathJoin [r.tempDir, r.triggerFile]) s.world = (.content c, w))
    (hc : ¬ IsIntLiteral B.is64 c) :
    ∃ cause,
      runner.createOrUpdateTriggerFile B r s =
        (some (.parseFailed cause),
          s.record w (.readFile (filepathJoin [r.tempDir, r.triggerFile]) (.content c))) := by
  cases hparse : atoi B.is64 c with
  | ok z => exact absurd (atoi_ok_isIntLiteral B.is64 c z hparse) hc
  | error cause =>
    refine ⟨cause, ?_⟩
    unfold runner.createOrUpdateTriggerFile readFile
    simp only [hread, hparse]

theorem not_isIntLiteral_abc : ¬ IsIntLiteral true "abc" := by
  rintro ⟨sign, digits, hs, hsign, hne, hdig, -⟩
  rcases hsign with rfl | rfl | rfl
  · have hd : digits = ['a', 'b', 'c'] := by simpa using hs.symm
    subst hd
    exact absurd (hdig 'a' (by simp)) (by decide)
  · simp at hs
  · simp at hs

/-- Witness for C4: the trigger file holds `abc`. -/
theorem createOrUpdateTriggerFile_rejects_witness :
    ¬ IsIntLiteral true "abc" ∧
    ∃ cause,
      runner.createOrUpdateTriggerFile toySim demoRunner
        ⟨{ demoWorld with files := [("/work/trigger.txt", "abc")] }, []⟩ =
        (some (.parseFailed cause),
          (⟨{ demoWorld with files := [("/work/trigger.txt", "abc")] }, []⟩ : St Sim).record
            { demoWorld with files := [("/work/trigger.txt", "abc")] }
            (.readFile (filepathJoin [demoRunner.tempDir, demoRunner.triggerFile])
              (.content "abc"))) :=
  ⟨not_isIntLiteral_abc,
    createOrUpdateTriggerFile_rejects toySim demoRunner
      ⟨{ demoWorld with files := [("/work/trigger.txt", "abc")] }, []⟩ "abc"
      { demoWorld with files := [("/work/trigger.txt", "abc")] } rfl not_isIntLiteral_abc⟩

/-- C4 as stated fails for signed contents: `-5` and `+5` are not decimal
representations of a non-negative integer, yet the mutation accepts them,
writes `-4` (respectively `6`) and runs the three `git` commands. -/
theorem createOrUpdateTriggerFile_accepts_signed :
    (¬ ∃ n, IsDecimalOf "-5" n) ∧ (¬ ∃ n, IsDecimalOf "+5" n) ∧
    runner.createOrUpdateTriggerFile toySim demoRunner
      ⟨{ demoWorld with files := [("/work/trigger.txt", "-5")] }, []⟩ =
      (none,
        ⟨{ demoWorld with
            files := [("/work/trigger.txt", "-4")], clock := 15, gitBudget := 97 },
         [.readFile "/work/trigger.txt" (.content "-5"),
          .writeFile "/work/trigger.txt" "-4" none,
          .exec "git" ["-C", "/work", "add", "trigger.txt"] "" none,
          .exec "git" ["-C", "/work", "commit", "-m", "Update trigger.txt"] "" none,
          .exec "git" ["-C", "/work", "push"] "" none]⟩) ∧
    runner.createOrUpdateTriggerFile toySim demoRunner
      ⟨{ demoWorld with files := [("/work/trigger.txt", "+5")] }, []⟩ =
      (none,
        ⟨{ demoWorld with
            files := [("/work/trigger.txt", "6")], clock := 15, gitBudget := 97 },
         [.readFile "/work/trigger.txt" (.content "+5"),
          .writeFile "/work/trigger.txt" "6" none,
          .exec "git" ["-C", "/work", "add", "trigger.txt"] "" none,
          .exec "git" ["-C", "/work", "commit", "-m", "Update trigger.txt"] "" none,
          .exec "git" ["-C", "/work", "push"] "" none]⟩) := by
  refine ⟨?_, ?_, rfl, rfl⟩
  · rintro ⟨n, -, hdig, -⟩
    exact absurd (hdig '-' (by decide)) (by decide)
  · rintro ⟨n, -, hdig, -⟩
    exact absurd (hdig '+' (by decide)) (by decide)

theorem atoi_zero (is64 : Bool) : atoi is64 "0" = .ok 0 := by
  cases is64 <;> rfl

theorem itoa_one (is64 : Bool) : itoa (wrapInt (intSize is64) (0 + 1)) = "1" := by
  cases is64 <;> decide

/-- C8: when the trigger file does not exist, the mutation returns the same
error, ends in the same world and makes the same calls after the read as it
does on the backend where the missing file reads as content `0`; those calls
are: write `1`, then `git add`, `git commit`, `git push` (stopping at the
first failure).  A read that fails for another reason is returned as the
read error, and nothing else is called. -/
theorem createOrUpdateTriggerFile_missing (B : Backend σ) (r : runner) (s : St σ)
    (res : ReadResult) (w : σ)
    (hread : B.readFile (filepathJoin [r.tempDir, r.triggerFile]) s.world = (res, w)) :
    (res = .notExist →
      ∃ evs wf result,
        runner.createOrUpdateTriggerFile B r s =
          (result,
            ⟨wf, s.trace ++
              .readFile (filepathJoin [r.tempDir, r.triggerFile]) .notExist :: evs⟩) ∧
        runner.createOrUpdateTriggerFile B.missingAsZero r s =
          (result,
            ⟨wf, s.trace ++
              .readFile (filepathJoin [r.tempDir, r.triggerFile]) (.content "0") :: evs⟩) ∧
        MutationSteps r (filepathJoin [r.tempDir, r.triggerFile]) "1" evs result) ∧
    (∀ cause, res = .failed cause →
      runner.createOrUpdateTriggerFile B r s =
        (some (.readFailed cause),
          s.record w (.readFile (filepathJoin [r.tempDir, r.triggerFile]) (.failed cause)))) := by
  constructor
  · intro hres
    subst hres
    obtain ⟨evs, wf, result, hsteps, hrun⟩ := mutation_shape B r w "0" 0 (atoi_zero B.is64)
    rw [itoa_one] at hsteps
    refine ⟨evs, wf, result, ?_, ?_, hsteps⟩
    · exact hrun B s .notExist rfl rfl rfl hread (Or.inr ⟨rfl, rfl⟩)
    · refine hrun B.missingAsZero s (.content "0") rfl rfl rfl ?_ (Or.inl rfl)
      simp only [Backend.missingAsZero, hread]
  · intro cause hres
    subst hres
    unfold runner.createOrUpdateTriggerFile readFile
    simp only [hread]

/-- Witness for C8: a world with no file at all. -/
theorem createOrUpdateTriggerFile_missing_witness :
    toySim.readFile (filepathJoin [demoRunner.tempDir, demoRunner.triggerFile]) demoWorld =
      (.notExist, demoWorld) ∧
    ∃ evs wf result,
      runner.createOrUpdateTriggerFile toySim demoRunner ⟨demoWorld, []⟩ =
        (result,
          ⟨wf, [] ++
            .readFile (filepathJoin [demoRunner.tempDir, demoRunner.triggerFile]) .notExist ::
              evs⟩) ∧
      runner.createOrUpdateTriggerFile toySim.missingAsZero demoRunner ⟨demoWorld, []⟩ =
        (result,
          ⟨wf, [] ++
            .readFile (filepathJoin [demoRunner.tempDir, demoRunner.triggerFile])
              (.content "0") :: evs⟩) ∧
      MutationSteps demoRunner (filepathJoin [demoRunner.tempDir, demoRunner.triggerFile])
        "1" evs result :=
  ⟨rfl,
    (createOrUpdateTriggerFile_missing toySim demoRunner ⟨demoWorld, []⟩ .notExist demoWorld
      rfl).1 rfl⟩

/-- C9: once the trigger file's content (or `0` for a missing file) parses as
`n`, the calls that follow the read are, in this order, the write of the new
content to the trigger file, `git -C tempDir add triggerFile`,
`git -C tempDir commit -m "Update triggerFile"` and `git -C tempDir push`,
each at most once; a call is made only when every earlier one succeeded, the
mutation returns `nil` exactly when all four succeeded and otherwise returns
the error of the call that failed. -/
theorem createOrUpdateTriggerFile_steps (B : Backend σ) (r : runner) (s : St σ)
    (res : ReadResult) (w : σ) (c : String) (n : Int)
    (hread : B.readFile (filepathJoin [r.tempDir, r.triggerFile]) s.world = (res, w))
    (hres : res = .content c ∨ (res = .notExist ∧ c = "0"))
    (hparse : atoi B.is64 c = .ok n) :
    ∃ evs,
      (runner.createOrUpdateTriggerFile B r s).2.trace =
        s.trace ++ .readFile (filepathJoin [r.tempDir, r.triggerFile]) res :: evs ∧
      MutationSteps r (filepathJoin [r.tempDir, r.triggerFile])
        (itoa (wrapInt (intSize B.is64) (n + 1))) evs
        (runner.createOrUpdateTriggerFile B r s).1 := by
  obtain ⟨evs, wf, result, hsteps, hrun⟩ := mutation_shape B r w c n hparse
  have h := hrun B s res rfl rfl rfl hread hres
  refine ⟨evs, ?_, ?_⟩
  · rw [h]
  · rw [h]; exact hsteps

/-- Witness for C9: the trigger file holds `7` and the third `git` invocation
(the push) fails. -/
theorem createOrUpdateTriggerFile_steps_witness :
    atoi toySim.is64 "7" = .ok 7 ∧
    ∃ evs,
      (runner.createOrUpdateTriggerFile toySim demoRunner
        ⟨{ demoWorld with files := [("/work/trigger.txt", "7")], gitBudget := 2 }, []⟩).2.trace =
        [] ++ .readFile (filepathJoin [demoRunner.tempDir, demoRunner.triggerFile])
          (.content "7") :: evs ∧
      MutationSteps demoRunner (filepathJoin [demoRunner.tempDir, demoRunner.triggerFile])
        (itoa (wrapInt (intSize toySim.is64) (7 + 1))) evs
        (runner.createOrUpdateTriggerFile toySim demoRunner
          ⟨{ demoWorld with files := [("/work/trigger.txt", "7")], gitBudget := 2 }, []⟩).1 :=
  ⟨rfl,
    createOrUpdateTriggerFile_steps toySim demoRunner
      ⟨{ demoWorld with files := [("/work/trigger.txt", "7")], gitBudget := 2 }, []⟩
      (.content "7") { demoWorld with files := [("/work/trigger.txt", "7")], gitBudget := 2 }
      "7" 7 rfl (Or.inl rfl) rfl⟩

/-! ## The rise-edge loop on scripted listings -/

theorem sim_getEphemeralRunners (dR : String → Except String (List ephemeralRunner))
    (dP : String → Except String (List pod)) (r : runner) (w : Sim) (tr : List Event)
    (a : String) (rest : List (String × Option String)) (items : List ephemeralRunner)
    (hrep : w.replies = (a, none) :: rest) (ha : dR a = .ok items) :
    runner.getEphemeralRunners (sim dR dP) r ⟨w, tr⟩ =
      (.ok items,
        ⟨{ w with clock := w.clock + 1, replies := rest },
          tr ++ [.exec "kubectl"
            ["get", "ephemeralrunner", "-n", r.runnerNamespace, "-o", "json"] a none]⟩) := by
  have hk : ¬ ("kubectl" = "git") := by decide
  simp [runner.getEphemeralRunners, runner.kubectl, runner.runCommand, sim, Sim.command, hk,
    hrep, ha, St.record]

theorem sim_getEphemeralRunnerPods (dR : String → Except String (List ephemeralRunner))
    (dP : String → Except String (List pod)) (r : runner) (w : Sim) (tr : List Event)
    (b : String) (rest : List (String × Option String)) (items : List pod)
    (hrep : w.replies = (b, none) :: rest) (hb : dP b = .ok items) :
    runner.getEphemeralRunnerPods (sim dR dP) r ⟨w, tr⟩ =
      (.ok items,
        ⟨{ w with clock := w.clock + 1, replies := rest },
          tr ++ [.exec "kubectl" ["get", "pod", "-n", r.runnerNamespace, "-o", "json"] b none]⟩) := by
  have hk : ¬ ("kubectl" = "git") := by decide
  simp [runner.getEphemeralRunnerPods, runner.kubectl, runner.runCommand, sim, Sim.command, hk,
    hrep, hb, St.record]

/-- C2: on the scripted backend, let the successive poll iterations get the
outputs `pre ++ [(a, b)]` without query error, where every pair of `pre`
decodes to two empty listings and `(a, b)` decodes to listings of which at
least one is non-empty.  Then with enough fuel the rise-edge loop breaks in
iteration `pre.length + 1`: it has consumed exactly those replies, and its
calls are the polls of `pre` (each followed by the log line and another poll)
and the two queries of the last iteration.  With fuel for at most
`pre.length` iterations it is still polling. -/
theorem riseLoop_breaks_at_first_nonempty
    (dR : String → Except String (List ephemeralRunner))
    (dP : String → Except String (List pod)) (r : runner)
    (pre : List (String × String)) (a b : String) (post : List (String × Option String))
    (ers : List ephemeralRunner) (pods : List pod)
    (hpre : ∀ p ∈ pre, dR p.1 = .ok [] ∧ dP p.2 = .ok [])
    (ha : dR a = .ok ers) (hb : dP b = .ok pods) (hne : ers ≠ [] ∨ pods ≠ [])
    (w : Sim) (tr : List Event) (hscript : w.replies = scriptOf (pre ++ [(a, b)]) ++ post) :
    (∀ fuel, pre.length < fuel →
      riseLoop (sim dR dP) r fuel ⟨w, tr⟩ =
        (.broke,
          ⟨{ w with clock := w.clock + 2 * (pre.length + 1), replies := post },
            tr ++ risePolls r pre ++
              [.exec "kubectl"
                ["get", "ephemeralrunner", "-n", r.runnerNamespace, "-o", "json"] a none,
               .exec "kubectl" ["get", "pod", "-n", r.runnerNamespace, "-o", "json"] b none]⟩)) ∧
    (∀ fuel, fuel ≤ pre.length →
      (riseLoop (sim dR dP) r fuel ⟨w, tr⟩).1 = .outOfFuel) := by
  induction pre generalizing w tr with
  | nil =>
    constructor
    · intro fuel hfuel
      obtain ⟨f, rfl⟩ : ∃ f, fuel = f + 1 := ⟨fuel - 1, by simp at hfuel; omega⟩
      have h1 : w.replies = (a, none) :: ((b, none) :: post) := by
        simpa [scriptOf] using hscript
      have hcond : ers.length > 0 ∨ pods.length > 0 := by
        rcases hne with h | h
        · left; exact List.length_pos.mpr h
        · right; exact List.length_pos.mpr h
      unfold riseLoop
      rw [sim_getEphemeralRunners dR dP r w tr a _ ers h1 ha]
      simp only
      rw [sim_getEphemeralRunnerPods dR dP r _ _ b post pods rfl hb]
      simp [hcond, risePolls]
    · intro fuel hfuel
      have : fuel = 0 := by simpa using hfuel
      subst this
      rfl
  | cons p pre ih =>
    have hp := hpre p (by simp)
    have h1 : w.replies =
        (p.1, none) :: ((p.2, none) :: (scriptOf (pre ++ [(a, b)]) ++ post)) := by
      simpa [scriptOf] using hscript
    have step : ∀ f, riseLoop (sim dR dP) r (f + 1) ⟨w, tr⟩ =
        riseLoop (sim dR dP) r f
          ⟨{ w with clock := w.clock + 1 + 1, replies := scriptOf (pre ++ [(a, b)]) ++ post },
            tr ++ risePolls r [p]⟩ := by
      intro f
      conv_lhs => unfold riseLoop
      rw [sim_getEphemeralRunners dR dP r w tr p.1 _ [] h1 hp.1]
      simp only
      rw [sim_getEphemeralRunnerPods dR dP r _ _ p.2 _ [] rfl hp.2]
      simp [logLine, St.record, sim, risePolls]
    have ih1 := ih (fun q hq => hpre q (by simp [hq]))
      { w with clock := w.clock + 1 + 1, replies := scriptOf (pre ++ [(a, b)]) ++ post }
      (tr ++ risePolls r [p]) rfl
    constructor
    · intro fuel hfuel
      obtain ⟨f, rfl⟩ : ∃ f, fuel = f + 1 := ⟨fuel - 1, by simp at hfuel; omega⟩
      rw [step f, ih1.1 f (by simpa using hfuel)]
      have hclock : w.clock + 1 + 1 + 2 * (pre.length + 1) =
          w.clock + 2 * ((p :: pre).length + 1) := by
        simp only [List.length_cons]; omega
      simp [risePolls, hclock]
    · intro fuel hfuel
      cases fuel with
      | zero => rfl
      | succ f =>
        rw [step f]
        exact ih1.2 f (by simpa using hfuel)

theorem toy_empty_pairs :
    ∀ p ∈ [("", ""), ("", "")], toyRunners p.1 = .ok [] ∧ toyPods p.2 = .ok [] := by
  intro p hp
  simp only [List.mem_cons, List.mem_singleton, List.not_mem_nil, or_false, or_self] at hp
  subst hp
  exact ⟨rfl, rfl⟩

/-- Witness for C2: two empty polls, then a runner and no pod. -/
theorem riseLoop_breaks_at_first_nonempty_witness :
    (∀ p ∈ [("", ""), ("", "")], toyRunners p.1 = .ok [] ∧ toyPods p.2 = .ok []) ∧
    toyRunners "r1" = .ok [⟨"r1"⟩] ∧ toyPods "" = .ok [] ∧
    (∀ fuel, [("", ""), ("", "")].length < fuel →
      riseLoop (sim toyRunners toyPods) demoRunner fuel
        ⟨{ demoWorld with replies := scriptOf ([("", ""), ("", "")] ++ [("r1", "")]) ++ [] }, []⟩ =
        (.broke,
          ⟨{ { demoWorld with
                replies := scriptOf ([("", ""), ("", "")] ++ [("r1", "")]) ++ [] } with
              clock := 0 + 2 * ([("", ""), ("", "")].length + 1), replies := [] },
            [] ++ risePolls demoRunner [("", ""), ("", "")] ++
              [.exec "kubectl"
                ["get", "ephemeralrunner", "-n", demoRunner.runnerNamespace, "-o", "json"]
                "r1" none,
               .exec "kubectl" ["get", "pod", "-n", demoRunner.runnerNamespace, "-o", "json"]
                "" none]⟩)) ∧
    (∀ fuel, fuel ≤ [("", ""), ("", "")].length →
      (riseLoop (sim toyRunners toyPods) demoRunner fuel
        ⟨{ demoWorld with replies := scriptOf ([("", ""), ("", "")] ++ [("r1", "")]) ++ [] },
          []⟩).1 = .outOfFuel) :=
  ⟨toy_empty_pairs, rfl, rfl,
    riseLoop_breaks_at_first_nonempty toyRunners toyPods demoRunner [("", ""), ("", "")]
      "r1" "" [] [⟨"r1"⟩] [] toy_empty_pairs rfl rfl (Or.inl (by simp))
      { demoWorld with replies := scriptOf ([("", ""), ("", "")] ++ [("r1", "")]) ++ [] } [] rfl⟩

/-! ## Which calls each part of `run` makes -/

theorem adds_refl (K : List Kind) (s : St σ) : Adds K s s :=
  ⟨[], by simp, by simp⟩

theorem adds_trans {K : List Kind} {s s1 s2 : St σ} (h1 : Adds K s s1) (h2 : Adds K s1 s2) :
    Adds K s s2 := by
  obtain ⟨e1, ht1, hk1⟩ := h1
  obtain ⟨e2, ht2, hk2⟩ := h2
  refine ⟨e1 ++ e2, by rw [ht2, ht1, List.append_assoc], ?_⟩
  intro e he
  rcases List.mem_append.mp he with h | h
  · exact hk1 e h
  · exact hk2 e h

theorem adds_mono {K K1 : List Kind} {s s1 : St σ} (hsub : ∀ k ∈ K, k ∈ K1)
    (h : Adds K s s1) : Adds K1 s s1 := by
  obtain ⟨evs, ht, hk⟩ := h
  exact ⟨evs, ht, fun e he => hsub _ (hk e he)⟩

theorem adds_record (K : List Kind) (s : St σ) (w : σ) (e : Event) (h : e.kind ∈ K) :
    Adds K s (s.record w e) :=
  ⟨[e], rfl, by simpa using h⟩

theorem timeNow_adds (K : List Kind) (h : Kind.clock ∈ K) (B : Backend σ) (s : St σ) :
    Adds K s (timeNow B s).2 :=
  adds_record K s _ _ h

theorem mkdirAll_adds (K : List Kind) (h : Kind.dir ∈ K) (B : Backend σ) (path : String)
    (s : St σ) : Adds K s (mkdirAll B path s).2 :=
  adds_record K s _ _ h

theorem stat_adds (K : List Kind) (h : Kind.dir ∈ K) (B : Backend σ) (path : String)
    (s : St σ) : Adds K s (stat B path s).2 :=
  adds_record K s _ _ h

theorem writeFile_adds (K : List Kind) (h : Kind.write ∈ K) (B : Backend σ)
    (path content : String) (s : St σ) : Adds K s (writeFile B path content s).2 :=
  adds_record K s _ _ h

theorem sleep_adds (K : List Kind) (h : Kind.pause ∈ K) (B : Backend σ) (n : Nat)
    (s : St σ) : Adds K s (sleep B n s) :=
  adds_record K s _ _ h

theorem logLine_adds (K : List Kind) (h : Kind.logging ∈ K) (B : Backend σ) (l : LogLine)
    (s : St σ) : Adds K s (logLine B l s) :=
  adds_record K s _ _ h

/-- What one command invocation returns and records. -/
theorem runCommand_eq (B : Backend σ) (name : String) (args : List String) (s : St σ) :
    ∃ out err w,
      runner.runCommand B name args s =
        (match err with
          | some cause => Except.error (Err.command name (args.headD "") cause out)
          | none => Except.ok out,
         s.record w (.exec name args out err)) := by
  rcases hres : B.combinedOutput name args s.world with ⟨⟨out, err⟩, w⟩
  refine ⟨out, err, w, ?_⟩
  unfold runner.runCommand
  rw [hres]
  cases err <;> rfl

theorem git_adds (K : List Kind) (h : Kind.git ∈ K) (B : Backend σ) (args : List String)
    (s : St σ) : Adds K s (runner.git B args s).2 := by
  obtain ⟨out, err, w, heq⟩ := runCommand_eq B "git" args s
  unfold runner.git
  rw [heq]
  exact adds_record K s _ _ (by simpa [Event.kind] using h)

theorem kubectl_adds (K : List Kind) (h : Kind.query ∈ K) (B : Backend σ)
    (args : List String) (s : St σ) : Adds K s (runner.kubectl B args s).2 := by
  obtain ⟨out, err, w, heq⟩ := runCommand_eq B "kubectl" args s
  unfold runner.kubectl
  rw [heq]
  have hk : ¬ ("kubectl" = "git") := by decide
  exact adds_record K s _ _ (by simpa [Event.kind, hk] using h)

theorem getEphemeralRunners_adds (K : List Kind) (h : Kind.query ∈ K) (B : Backend σ)
    (r : runner) (s : St σ) : Adds K s (runner.getEphemeralRunners B r s).2 := by
  have hk := kubectl_adds K h B
    ["get", "ephemeralrunner", "-n", r.runnerNamespace, "-o", "json"] s
  unfold runner.getEphemeralRunners
  rcases hq : runner.kubectl B
    ["get", "ephemeralrunner", "-n", r.runnerNamespace, "-o", "json"] s with ⟨res, s1⟩
  rw [hq] at hk
  cases res with
  | error e => exact hk
  | ok out =>
    simp only
    cases B.unmarshalRunners out <;> exact hk

theorem getEphemeralRunnerPods_adds (K : List Kind) (h : Kind.query ∈ K) (B : Backend σ)
    (r : runner) (s : St σ) : Adds K s (runner.getEphemeralRunnerPods B r s).2 := by
  have hk := kubectl_adds K h B ["get", "pod", "-n", r.runnerNamespace, "-o", "json"] s
  unfold runner.getEphemeralRunnerPods
  rcases hq : runner.kubectl B ["get", "pod", "-n", r.runnerNamespace, "-o", "json"] s
    with ⟨res, s1⟩
  rw [hq] at hk
  cases res with
  | error e => exact hk
  | ok out =>
    simp only
    cases B.unmarshalPods out <;> exact hk

/-- A mutation makes one read, then only writes and `git` invocations. -/
theorem createOrUpdateTriggerFile_calls (B : Backend σ) (r : runner) (s : St σ) :
    ∃ res evs,
      (runner.createOrUpdateTriggerFile B r s).2.trace =
        s.trace ++ .readFile (filepathJoin [r.tempDir, r.triggerFile]) res :: evs ∧
      ∀ e ∈ evs, e.kind ∈ [Kind.write, Kind.git] := by
  rcases hread : B.readFile (filepathJoin [r.tempDir, r.triggerFile]) s.world with ⟨res, w⟩
  have hfail : ∀ c : String, (res = .content c ∨ (res = .notExist ∧ c = "0")) →
      ∃ evs,
      (runner.createOrUpdateTriggerFile B r s).2.trace =
        s.trace ++ .readFile (filepathJoin [r.tempDir, r.triggerFile]) res :: evs ∧
      ∀ e ∈ evs, e.kind ∈ [Kind.write, Kind.git] := by
    intro c hres
    cases hparse : atoi B.is64 c with
    | error cause =>
      refine ⟨[], ?_, by simp⟩
      have hcontent : (match res with
          | .content data => (Except.ok data : Except Err String)
          | .notExist => .ok "0"
          | .failed cause => .error (.readFailed cause)) = .ok c := by
        rcases hres with rfl | ⟨rfl, rfl⟩ <;> rfl
      unfold runner.createOrUpdateTriggerFile readFile
      simp only [hread, hcontent, hparse, St.record]
    | ok n =>
      obtain ⟨evs, wf, result, hsteps, hrun⟩ := mutation_shape B r w c n hparse
      refine ⟨evs, by rw [hrun B s res rfl rfl rfl hread hres], ?_⟩
      rcases hsteps with ⟨cause, rfl, -⟩ | ⟨o, cause, rfl, -⟩ | ⟨o1, o, cause, rfl, -⟩ |
        ⟨o1, o2, o, cause, rfl, -⟩ | ⟨o1, o2, o3, rfl, -⟩ <;>
      · intro e he
        simp only [List.mem_cons, List.mem_singleton, List.not_mem_nil, or_false] at he
        rcases he with rfl | rfl | rfl | rfl <;> simp [Event.kind]
  refine ⟨res, ?_⟩
  cases res with
  | content data => exact hfail data (Or.inl rfl)
  | notExist => exact hfail "0" (Or.inr ⟨rfl, rfl⟩)
  | failed cause =>
    refine ⟨[], ?_, by simp⟩
    unfold runner.createOrUpdateTriggerFile readFile
    simp only [hread, St.record]

theorem countKind_append (k : Kind) (a b : List Event) :
    countKind k (a ++ b) = countKind k a + countKind k b := by
  simp [countKind, List.countP_append]

theorem countKind_of_adds {K : List Kind} {s s1 : St σ} (k : Kind) (hk : k ∉ K)
    (h : Adds K s s1) : countKind k s1.trace = countKind k s.trace := by
  obtain ⟨evs, ht, hev⟩ := h
  rw [ht, countKind_append]
  have : countKind k evs = 0 := by
    unfold countKind
    rw [List.countP_eq_zero]
    intro e he
    have := hev e he
    simp only [decide_eq_true_eq]
    intro heq
    rw [heq] at this
    exact hk this
  omega

theorem resolveTempDir_adds (K : List Kind) (h : Kind.clock ∈ K) (B : Backend σ) (r : runner)
    (s : St σ) : Adds K s (resolveTempDir B r s).2 := by
  unfold resolveTempDir
  split
  · exact timeNow_adds K h B s
  · exact adds_refl K s

theorem syncRepo_adds (K : List Kind) (hd : Kind.dir ∈ K) (hl : Kind.logging ∈ K)
    (hg : Kind.git ∈ K) (B : Backend σ) (r : runner) (dir : String) (s : St σ) :
    Adds K s (syncRepo B r dir s).2 := by
  have a1 := mkdirAll_adds K hd B dir s
  unfold syncRepo
  rcases hm : mkdirAll B dir s with ⟨merr, s1⟩
  rw [hm] at a1
  cases merr with
  | some cause => exact a1
  | none =>
    simp only
    have a2 := stat_adds K hd B (filepathJoin [dir, ".git"]) s1
    rcases hs : stat B (filepathJoin [dir, ".git"]) s1 with ⟨found, s2⟩
    rw [hs] at a2
    cases found with
    | true =>
      simp only
      have a3 := logLine_adds K hl B (.pull r.sourceRepo) s2
      have a4 := git_adds K hg B ["-C", dir, "pull"] (logLine B (.pull r.sourceRepo) s2)
      have a := adds_trans a1 (adds_trans a2 (adds_trans a3 a4))
      rcases hgit : runner.git B ["-C", dir, "pull"] (logLine B (.pull r.sourceRepo) s2)
        with ⟨res, s3⟩
      rw [hgit] at a
      cases res <;> exact a
    | false =>
      simp only
      have a3 := logLine_adds K hl B (.clone r.sourceRepo dir) s2
      have a4 := git_adds K hg B ["clone", r.sourceRepo, dir]
        (logLine B (.clone r.sourceRepo dir) s2)
      have a := adds_trans a1 (adds_trans a2 (adds_trans a3 a4))
      rcases hgit : runner.git B ["clone", r.sourceRepo, dir]
        (logLine B (.clone r.sourceRepo dir) s2) with ⟨res, s3⟩
      rw [hgit] at a
      cases res <;> exact a

theorem riseLoop_adds (K : List Kind) (hq : Kind.query ∈ K) (hl : Kind.logging ∈ K)
    (B : Backend σ) (r : runner) (fuel : Nat) :
    ∀ s : St σ, Adds K s (riseLoop B r fuel s).2 := by
  induction fuel with
  | zero => intro s; exact adds_refl K s
  | succ f ih =>
    intro s
    have a1 := getEphemeralRunners_adds K hq B r s
    unfold riseLoop
    rcases h1 : runner.getEphemeralRunners B r s with ⟨res1, s1⟩
    rw [h1] at a1
    cases res1 with
    | error e => exact a1
    | ok ers =>
      simp only
      have a2 := adds_trans a1 (getEphemeralRunnerPods_adds K hq B r s1)
      rcases h2 : runner.getEphemeralRunnerPods B r s1 with ⟨res2, s2⟩
      rw [h2] at a2
      cases res2 with
      | error e => exact a2
      | ok pods =>
        simp only
        split
        · exact a2
        · exact adds_trans a2 (adds_trans (logLine_adds K hl B _ s2) (ih _))

theorem fallLoop_adds (K : List Kind) (hq : Kind.query ∈ K) (hl : Kind.logging ∈ K)
    (hp : Kind.pause ∈ K) (B : Backend σ) (r : runner) (fuel : Nat) :
    ∀ s : St σ, Adds K s (fallLoop B r fuel s).2 := by
  induction fuel with
  | zero => intro s; exact adds_refl K s
  | succ f ih =>
    intro s
    have a1 := getEphemeralRunners_adds K hq B r s
    unfold fallLoop
    rcases h1 : runner.getEphemeralRunners B r s with ⟨res1, s1⟩
    rw [h1] at a1
    cases res1 with
    | error e => exact a1
    | ok ers =>
      simp only
      have a2 := adds_trans a1 (getEphemeralRunnerPods_adds K hq B r s1)
      rcases h2 : runner.getEphemeralRunnerPods B r s1 with ⟨res2, s2⟩
      rw [h2] at a2
      cases res2 with
      | error e => exact a2
      | ok pods =>
        simp only
        split
        · exact a2
        · exact adds_trans a2
            (adds_trans (logLine_adds K hl B _ s2)
              (adds_trans (logLine_adds K hl B _ _)
                (adds_trans (sleep_adds K hp B 10 _) (ih _))))

/-- Unrolling the trigger loop at its last iteration. -/
theorem triggerLoop_snoc (B : Backend σ) (r : runner) (k : Nat) : ∀ s : St σ,
    triggerLoop B r (k + 1) s =
      match triggerLoop B r k s with
      | (some e, s1) => (some e, s1)
      | (none, sk) =>
        runner.createOrUpdateTriggerFile B r (logLine B (.trigger r.triggerFile) sk) := by
  induction k with
  | zero =>
    intro s
    simp only [triggerLoop]
    rcases runner.createOrUpdateTriggerFile B r (logLine B (.trigger r.triggerFile) s)
      with ⟨res, s1⟩
    cases res <;> rfl
  | succ k ih =>
    intro s
    rw [triggerLoop]
    conv_rhs => rw [triggerLoop]
    rcases runner.createOrUpdateTriggerFile B r (logLine B (.trigger r.triggerFile) s)
      with ⟨res, s1⟩
    cases res with
    | some e => rfl
    | none => exact ih s1

/-- Once a call has failed, more iterations change nothing. -/
theorem triggerLoop_failed_mono (B : Backend σ) (r : runner) (k : Nat) (s sf : St σ) (e : Err)
    (h : triggerLoop B r k s = (some e, sf)) :
    ∀ n, k ≤ n → triggerLoop B r n s = (some e, sf) := by
  intro n hn
  induction n with
  | zero =>
    have : k = 0 := by omega
    subst this
    exact h
  | succ n ih =>
    rcases Nat.lt_or_ge k (n + 1) with hlt | hge
    · rw [triggerLoop_snoc, ih (by omega)]
    · have : k = n + 1 := by omega
      subst this
      exact h

/-- One iteration of the trigger loop makes exactly one read and no
cluster-state query. -/
theorem trigger_call_counts (B : Backend σ) (r : runner) (s : St σ) :
    countKind .read
        (runner.createOrUpdateTriggerFile B r (logLine B (.trigger r.triggerFile) s)).2.trace =
      countKind .read s.trace + 1 ∧
    countKind .query
        (runner.createOrUpdateTriggerFile B r (logLine B (.trigger r.triggerFile) s)).2.trace =
      countKind .query s.trace := by
  obtain ⟨res, evs, htr, hev⟩ :=
    createOrUpdateTriggerFile_calls B r (logLine B (.trigger r.triggerFile) s)
  have hzero : ∀ k0 : Kind, k0 ∉ [Kind.write, Kind.git] → countKind k0 evs = 0 := by
    intro k0 hk0
    unfold countKind
    rw [List.countP_eq_zero]
    intro e he
    have := hev e he
    simp only [decide_eq_true_eq]
    intro heq
    rw [heq] at this
    exact hk0 this
  have hsplit : (Event.readFile (filepathJoin [r.tempDir, r.triggerFile]) res :: evs) =
      [Event.readFile (filepathJoin [r.tempDir, r.triggerFile]) res] ++ evs := rfl
  constructor
  · rw [htr]
    simp only [logLine, St.record, List.append_assoc]
    rw [countKind_append, countKind_append, hsplit, countKind_append, hzero .read (by decide)]
    simp [countKind, Event.kind]
  · rw [htr]
    simp only [logLine, St.record, List.append_assoc]
    rw [countKind_append, countKind_append, hsplit, countKind_append, hzero .query (by decide)]
    simp [countKind, Event.kind]

/-- When the first `k` calls succeed, the trigger loop has made exactly `k`
reads and no cluster-state query. -/
theorem triggerLoop_ok_counts (B : Backend σ) (r : runner) (k : Nat) : ∀ s sk : St σ,
    triggerLoop B r k s = (none, sk) →
      countKind .read sk.trace = countKind .read s.trace + k ∧
      countKind .query sk.trace = countKind .query s.trace := by
  induction k with
  | zero =>
    intro s sk h
    simp only [triggerLoop, Prod.mk.injEq, true_and] at h
    subst h
    simp
  | succ k ih =>
    intro s sk h
    rw [triggerLoop] at h
    obtain ⟨h1, h2⟩ := trigger_call_counts B r s
    rcases hc : runner.createOrUpdateTriggerFile B r (logLine B (.trigger r.triggerFile) s)
      with ⟨cres, s1⟩
    rw [hc] at h h1 h2
    cases cres with
    | some e => simp at h
    | none =>
      simp only at h h1 h2
      obtain ⟨hr, hq⟩ := ih s1 sk h
      omega

/-- When every call succeeds, so does the trigger loop. -/
theorem triggerLoop_all_ok (B : Backend σ) (r : runner) (s : St σ) (n : Nat)
    (h : ∀ k sk, k < n → triggerLoop B r k s = (none, sk) →
      (runner.createOrUpdateTriggerFile B r (logLine B (.trigger r.triggerFile) sk)).1 = none) :
    ∃ s3, triggerLoop B r n s = (none, s3) := by
  induction n with
  | zero => exact ⟨s, rfl⟩
  | succ n ih =>
    obtain ⟨sn, hn⟩ := ih (fun k sk hk => h k sk (by omega))
    have := h n sn (by omega) hn
    rw [triggerLoop_snoc, hn]
    simp only
    rcases hc : runner.createOrUpdateTriggerFile B r (logLine B (.trigger r.triggerFile) sn)
      with ⟨cres, s1⟩
    rw [hc] at this
    simp only at this
    subst this
    exact ⟨s1, rfl⟩

/-- After a trigger phase without failure, `run` makes only queries, log
lines, sleeps and clock readings. -/
theorem run_after_trigger (B : Backend σ) (r : runner) (fuel : Nat) (s s2 s3 : St σ)
    (hrepo : r.sourceRepo ≠ "")
    (hsync : syncRepo B r (resolveTempDir B r (timeNow B s).2).1
      (resolveTempDir B r (timeNow B s).2).2 = (none, s2))
    (htrig : triggerLoop B r r.triggers.toNat s2 = (none, s3)) :
    Adds [Kind.query, Kind.logging, Kind.pause, Kind.clock] s3 (runner.run B r fuel s).2 := by
  unfold runner.run
  simp only [hrepo, if_false, hsync, htrig]
  have ar := riseLoop_adds [Kind.query, Kind.logging, Kind.pause, Kind.clock]
    (by decide) (by decide) B r fuel s3
  rcases hr : riseLoop B r fuel s3 with ⟨ex, s4⟩
  rw [hr] at ar
  cases ex with
  | failed e => exact ar
  | outOfFuel => exact ar
  | broke =>
    simp only
    have af := adds_trans ar (fallLoop_adds [Kind.query, Kind.logging, Kind.pause, Kind.clock]
      (by decide) (by decide) (by decide) B r fuel s4)
    rcases hf : fallLoop B r fuel s4 with ⟨ex2, s5⟩
    rw [hf] at af
    cases ex2 with
    | failed e => exact af
    | outOfFuel => exact af
    | broke =>
      simp only
      exact adds_trans af (adds_trans (timeNow_adds _ (by decide) B s5)
        (logLine_adds _ (by decide) B _ _))

/-- The calls `run` makes before the trigger phase are clock readings,
directory calls, log lines and `git` invocations. -/
theorem run_before_trigger (B : Backend σ) (r : runner) (s : St σ) :
    Adds [Kind.clock, Kind.dir, Kind.logging, Kind.git] s
      (syncRepo B r (resolveTempDir B r (timeNow B s).2).1
        (resolveTempDir B r (timeNow B s).2).2).2 :=
  adds_trans (timeNow_adds _ (by decide) B s)
    (adds_trans (resolveTempDir_adds _ (by decide) B r _)
      (syncRepo_adds _ (by decide) (by decide) (by decide) B r _ _))

/-! ## The trigger phase -/

/-- Every call of `createOrUpdateTriggerFile` makes exactly one read. -/
theorem createOrUpdateTriggerFile_reads_once (B : Backend σ) (r : runner) (s : St σ) :
    countKind .read (runner.createOrUpdateTriggerFile B r s).2.trace =
      countKind .read s.trace + 1 := by
  obtain ⟨res, evs, htr, hev⟩ := createOrUpdateTriggerFile_calls B r s
  have hzero : countKind .read evs = 0 := by
    unfold countKind
    rw [List.countP_eq_zero]
    intro e he
    have := hev e he
    simp only [decide_eq_true_eq]
    intro heq
    rw [heq] at this
    exact absurd this (by decide)
  have hsplit : (Event.readFile (filepathJoin [r.tempDir, r.triggerFile]) res :: evs) =
      [Event.readFile (filepathJoin [r.tempDir, r.triggerFile]) res] ++ evs := rfl
  rw [htr, countKind_append, hsplit, countKind_append, hzero]
  simp [countKind, Event.kind]

/-- C5: let the run reach the trigger phase in state `s2` (the repository
check, the working directory and the sync succeeded) and let
`N = r.triggers.toNat` (`r.triggers` itself when it is at least 1).  A call of
`createOrUpdateTriggerFile` shows in the trace as its one read of the trigger
file (first part).  If each of the `N` calls, made after the earlier ones
succeeded, succeeds, the whole run makes exactly `N` of them (second part).
If call `k + 1` is the first to fail, with error `e`, then `run` returns `e`
in the very state that call ended in, having made exactly `k + 1` calls and
no cluster-state query (third part). -/
theorem run_trigger_phase (B : Backend σ) (r : runner) (fuel : Nat) (s s2 : St σ)
    (hrepo : r.sourceRepo ≠ "")
    (hsync : syncRepo B r (resolveTempDir B r (timeNow B s).2).1
      (resolveTempDir B r (timeNow B s).2).2 = (none, s2)) :
    (∀ s0 : St σ, countKind .read (runner.createOrUpdateTriggerFile B r s0).2.trace =
      countKind .read s0.trace + 1) ∧
    ((∀ k sk, k < r.triggers.toNat → triggerLoop B r k s2 = (none, sk) →
        (runner.createOrUpdateTriggerFile B r
          (logLine B (.trigger r.triggerFile) sk)).1 = none) →
      countKind .read (runner.run B r fuel s).2.trace =
        countKind .read s.trace + r.triggers.toNat) ∧
    (∀ k e sk sf, k < r.triggers.toNat → triggerLoop B r k s2 = (none, sk) →
      runner.createOrUpdateTriggerFile B r (logLine B (.trigger r.triggerFile) sk) =
        (some e, sf) →
      runner.run B r fuel s = (.returned (some e), sf) ∧
      countKind .read sf.trace = countKind .read s.trace + (k + 1) ∧
      countKind .query sf.trace = countKind .query s.trace) := by
  have hpre := run_before_trigger B r s
  rw [hsync] at hpre
  have hpre_r : countKind .read s2.trace = countKind .read s.trace :=
    countKind_of_adds .read (by decide) hpre
  have hpre_q : countKind .query s2.trace = countKind .query s.trace :=
    countKind_of_adds .query (by decide) hpre
  refine ⟨createOrUpdateTriggerFile_reads_once B r, ?_, ?_⟩
  · intro hall
    obtain ⟨s3, h3⟩ := triggerLoop_all_ok B r s2 r.triggers.toNat hall
    have hpost := run_after_trigger B r fuel s s2 s3 hrepo hsync h3
    have hpost_r := countKind_of_adds .read (by decide) hpost
    obtain ⟨hc, -⟩ := triggerLoop_ok_counts B r _ s2 s3 h3
    omega
  · intro k e sk sf hk hok hfail
    have hk1 : triggerLoop B r (k + 1) s2 = (some e, sf) := by
      rw [triggerLoop_snoc, hok]
      exact hfail
    have hN := triggerLoop_failed_mono B r (k + 1) s2 sf e hk1 r.triggers.toNat (by omega)
    obtain ⟨hr, hq⟩ := triggerLoop_ok_counts B r k s2 sk hok
    obtain ⟨hr1, hq1⟩ := trigger_call_counts B r sk
    rw [hfail] at hr1 hq1
    simp only at hr1 hq1
    refine ⟨?_, by omega, by omega⟩
    unfold runner.run
    simp only [hrepo, if_false, hsync, hN]

/-! ## Failed listing calls -/

theorem listingError_kind (B : Backend σ) (r : runner) (x : Event) (e : Err)
    (h : listingError B r x = some e) : x.kind = .query := by
  cases x with
  | exec name args out err =>
    unfold listingError at h
    by_cases hn : name = "kubectl"
    · subst hn
      have hk : ¬ ("kubectl" = "git") := by decide
      simp [Event.kind, hk]
    · simp [hn] at h
  | _ => simp [listingError] at h

theorem quiet_of_adds {K : List Kind} {s s1 : St σ} (B : Backend σ) (r : runner)
    (hq : Kind.query ∉ K) (h : Adds K s s1) :
    ∃ evs, s1.trace = s.trace ++ evs ∧ ∀ x ∈ evs, listingError B r x = none := by
  obtain ⟨evs, ht, hk⟩ := h
  refine ⟨evs, ht, ?_⟩
  intro x hx
  cases hl : listingError B r x with
  | none => rfl
  | some e =>
    have := listingError_kind B r x e hl
    have hin := hk x hx
    rw [this] at hin
    exact absurd hin hq

theorem failsLast_single (B : Backend σ) (r : runner) (ev : Event) :
    FailsLast B r [ev] (listingError B r ev) := by
  cases h : listingError B r ev with
  | none =>
    intro x hx
    simp only [List.mem_singleton] at hx
    subst hx
    exact h
  | some e => exact ⟨[], ev, rfl, by simp, h⟩

theorem failsLast_append (B : Backend σ) (r : runner) (a b : List Event) (ex : Option Err)
    (ha : ∀ x ∈ a, listingError B r x = none) (hb : FailsLast B r b ex) :
    FailsLast B r (a ++ b) ex := by
  cases ex with
  | none =>
    intro x hx
    rcases List.mem_append.mp hx with h | h
    · exact ha x h
    · exact hb x h
  | some e =>
    obtain ⟨init, ev, hev, hinit, hlast⟩ := hb
    refine ⟨a ++ init, ev, by rw [hev, List.append_assoc], ?_, hlast⟩
    intro x hx
    rcases List.mem_append.mp hx with h | h
    · exact ha x h
    · exact hinit x h

/-- The trace records what `getEphemeralRunners` returned. -/
theorem getEphemeralRunners_listing (B : Backend σ) (r : runner) (s : St σ) :
    ∃ ev, (runner.getEphemeralRunners B r s).2.trace = s.trace ++ [ev] ∧
      listingError B r ev =
        (match (runner.getEphemeralRunners B r s).1 with
          | .error e => some e
          | .ok _ => none) := by
  obtain ⟨out, err, w, heq⟩ := runCommand_eq B "kubectl"
    ["get", "ephemeralrunner", "-n", r.runnerNamespace, "-o", "json"] s
  refine ⟨.exec "kubectl" ["get", "ephemeralrunner", "-n", r.runnerNamespace, "-o", "json"]
    out err, ?_, ?_⟩
  · unfold runner.getEphemeralRunners runner.kubectl
    rw [heq]
    cases err with
    | some cause => rfl
    | none =>
      simp only
      cases B.unmarshalRunners out <;> rfl
  · unfold runner.getEphemeralRunners runner.kubectl
    rw [heq]
    cases err with
    | some cause => rfl
    | none =>
      simp only [listingError, if_true]
      cases B.unmarshalRunners out <;> rfl

/-- The trace records what `getEphemeralRunnerPods` returned. -/
theorem getEphemeralRunnerPods_listing (B : Backend σ) (r : runner) (s : St σ) :
    ∃ ev, (runner.getEphemeralRunnerPods B r s).2.trace = s.trace ++ [ev] ∧
      listingError B r ev =
        (match (runner.getEphemeralRunnerPods B r s).1 with
          | .error e => some e
          | .ok _ => none) := by
  obtain ⟨out, err, w, heq⟩ := runCommand_eq B "kubectl"
    ["get", "pod", "-n", r.runnerNamespace, "-o", "json"] s
  refine ⟨.exec "kubectl" ["get", "pod", "-n", r.runnerNamespace, "-o", "json"] out err,
    ?_, ?_⟩
  · unfold runner.getEphemeralRunnerPods runner.kubectl
    rw [heq]
    cases err with
    | some cause => rfl
    | none =>
      simp only
      cases B.unmarshalPods out <;> rfl
  · unfold runner.getEphemeralRunnerPods runner.kubectl
    rw [heq]
    have hne : ¬ (["get", "pod", "-n", r.runnerNamespace, "-o", "json"] =
        ["get", "ephemeralrunner", "-n", r.runnerNamespace, "-o", "json"]) := by
      intro h
      have h1 := (List.cons.inj (List.cons.inj h).2).1
      exact absurd h1 (by decide)
    cases err with
    | some cause => rfl
    | none =>
      simp only [listingError, if_true, hne, if_false]
      cases B.unmarshalPods out <;> rfl

/-- One poll iteration: the two listing calls, and whether one failed. -/
theorem riseLoop_shape (B : Backend σ) (r : runner) (fuel : Nat) : ∀ s : St σ,
    ∃ evs, (riseLoop B r fuel s).2.trace = s.trace ++ evs ∧
      FailsLast B r evs (riseLoop B r fuel s).1.error := by
  induction fuel with
  | zero => intro s; exact ⟨[], by simp [riseLoop], by simp [riseLoop, LoopExit.error, FailsLast]⟩
  | succ f ih =>
    intro s
    obtain ⟨ev1, ht1, hl1⟩ := getEphemeralRunners_listing B r s
    unfold riseLoop
    rcases h1 : runner.getEphemeralRunners B r s with ⟨res1, s1⟩
    rw [h1] at ht1 hl1
    simp only at ht1 hl1
    cases res1 with
    | error e =>
      refine ⟨[ev1], ht1, ?_⟩
      simp only [LoopExit.error]
      have := failsLast_single B r ev1
      rwa [hl1] at this
    | ok ers =>
      simp only at hl1 ⊢
      obtain ⟨ev2, ht2, hl2⟩ := getEphemeralRunnerPods_listing B r s1
      rcases h2 : runner.getEphemeralRunnerPods B r s1 with ⟨res2, s2⟩
      rw [h2] at ht2 hl2
      simp only at ht2 hl2
      have hq1 : ∀ x ∈ [ev1], listingError B r x = none := by
        intro x hx
        simp only [List.mem_singleton] at hx
        subst hx
        exact hl1
      cases res2 with
      | error e =>
        refine ⟨[ev1] ++ [ev2], by rw [ht2, ht1, List.append_assoc], ?_⟩
        simp only [LoopExit.error]
        have := failsLast_single B r ev2
        rw [hl2] at this
        exact failsLast_append B r _ _ _ hq1 this
      | ok pods =>
        simp only at hl2 ⊢
        have hq2 : ∀ x ∈ [ev1] ++ [ev2], listingError B r x = none := by
          intro x hx
          simp only [List.singleton_append, List.mem_cons, List.mem_singleton,
            List.not_mem_nil, or_false] at hx
          rcases hx with rfl | rfl
          · exact hl1
          · exact hl2
        split
        · exact ⟨[ev1] ++ [ev2], by rw [ht2, ht1, List.append_assoc], hq2⟩
        · obtain ⟨evs, ht, hf⟩ := ih (logLine B .waitingCreation s2)
          refine ⟨([ev1] ++ [ev2] ++ [.log .waitingCreation]) ++ evs, ?_, ?_⟩
          · rw [ht]
            simp only [logLine, St.record, ht2, ht1, List.append_assoc]
          · refine failsLast_append B r _ _ _ ?_ hf
            intro x hx
            rcases List.mem_append.mp hx with h | h
            · exact hq2 x h
            · simp only [List.mem_singleton] at h
              subst h
              rfl

/-- The same for the fall-edge loop. -/
theorem fallLoop_shape (B : Backend σ) (r : runner) (fuel : Nat) : ∀ s : St σ,
    ∃ evs, (fallLoop B r fuel s).2.trace = s.trace ++ evs ∧
      FailsLast B r evs (fallLoop B r fuel s).1.error := by
  induction fuel with
  | zero => intro s; exact ⟨[], by simp [fallLoop], by simp [fallLoop, LoopExit.error, FailsLast]⟩
  | succ f ih =>
    intro s
    obtain ⟨ev1, ht1, hl1⟩ := getEphemeralRunners_listing B r s
    unfold fallLoop
    rcases h1 : runner.getEphemeralRunners B r s with ⟨res1, s1⟩
    rw [h1] at ht1 hl1
    simp only at ht1 hl1
    cases res1 with
    | error e =>
      refine ⟨[ev1], ht1, ?_⟩
      simp only [LoopExit.error]
      have := failsLast_single B r ev1
      rwa [hl1] at this
    | ok ers =>
      simp only at hl1 ⊢
      obtain ⟨ev2, ht2, hl2⟩ := getEphemeralRunnerPods_listing B r s1
      rcases h2 : runner.getEphemeralRunnerPods B r s1 with ⟨res2, s2⟩
      rw [h2] at ht2 hl2
      simp only at ht2 hl2
      have hq1 : ∀ x ∈ [ev1], listingError B r x = none := by
        intro x hx
        simp only [List.mem_singleton] at hx
        subst hx
        exact hl1
      cases res2 with
      | error e =>
        refine ⟨[ev1] ++ [ev2], by rw [ht2, ht1, List.append_assoc], ?_⟩
        simp only [LoopExit.error]
        have := failsLast_single B r ev2
        rw [hl2] at this
        exact failsLast_append B r _ _ _ hq1 this
      | ok pods =>
        simp only at hl2 ⊢
        have hq2 : ∀ x ∈ [ev1] ++ [ev2], listingError B r x = none := by
          intro x hx
          simp only [List.singleton_append, List.mem_cons, List.mem_singleton,
            List.not_mem_nil, or_false] at hx
          rcases hx with rfl | rfl
          · exact hl1
          · exact hl2
        split
        · exact ⟨[ev1] ++ [ev2], by rw [ht2, ht1, List.append_assoc], hq2⟩
        · obtain ⟨evs, ht, hf⟩ := ih (sleep B 10 (logLine B .stillWaiting
            (logLine B (.observed ers.length pods.length) s2)))
          refine ⟨([ev1] ++ [ev2] ++ [.log (.observed ers.length pods.length),
            .log .stillWaiting, .sleep 10]) ++ evs, ?_, ?_⟩
          · rw [ht]
            simp only [sleep, logLine, St.record, ht2, ht1, List.append_assoc]
            simp
          · refine failsLast_append B r _ _ _ ?_ hf
            intro x hx
            rcases List.mem_append.mp hx with h | h
            · exact hq2 x h
            · simp only [List.mem_cons, List.mem_singleton, List.not_mem_nil, or_false] at h
              rcases h with rfl | rfl | rfl <;> rfl

theorem triggerLoop_adds (K : List Kind) (hl : Kind.logging ∈ K) (hr : Kind.read ∈ K)
    (hw : Kind.write ∈ K) (hg : Kind.git ∈ K) (B : Backend σ) (r : runner) (n : Nat) :
    ∀ s : St σ, Adds K s (triggerLoop B r n s).2 := by
  induction n with
  | zero => intro s; exact adds_refl K s
  | succ n ih =>
    intro s
    have acall : Adds K (logLine B (.trigger r.triggerFile) s)
        (runner.createOrUpdateTriggerFile B r (logLine B (.trigger r.triggerFile) s)).2 := by
      obtain ⟨res, evs, htr, hev⟩ :=
        createOrUpdateTriggerFile_calls B r (logLine B (.trigger r.triggerFile) s)
      refine ⟨_, htr, ?_⟩
      intro e he
      rcases List.mem_cons.mp he with rfl | h
      · exact hr
      · have := hev e h
        simp only [List.mem_cons, List.mem_singleton, List.not_mem_nil, or_false] at this
        rcases this with h1 | h1 <;> rw [h1] <;> assumption
    have a := adds_trans (logLine_adds K hl B (.trigger r.triggerFile) s) acall
    rw [triggerLoop]
    rcases hc : runner.createOrUpdateTriggerFile B r (logLine B (.trigger r.triggerFile) s)
      with ⟨cres, s1⟩
    rw [hc] at a
    cases cres with
    | some e => exact a
    | none => exact adds_trans a (ih s1)

/-- The calls of a whole run: either no listing call failed, or the last call
is a listing call that failed, no earlier one failed, and the run returned
its error. -/
theorem run_listing_shape (B : Backend σ) (r : runner) (fuel : Nat) (s : St σ) :
    ∃ evs, (runner.run B r fuel s).2.trace = s.trace ++ evs ∧
      ((∀ x ∈ evs, listingError B r x = none) ∨
        ∃ init ev e, evs = init ++ [ev] ∧ (∀ x ∈ init, listingError B r x = none) ∧
          listingError B r ev = some e ∧ (runner.run B r fuel s).1 = .returned (some e)) := by
  have hK : Kind.query ∉
      [Kind.clock, Kind.dir, Kind.logging, Kind.git, Kind.read, Kind.write] := by decide
  have a0 := timeNow_adds [Kind.clock, Kind.dir, Kind.logging, Kind.git, Kind.read, Kind.write]
    (by decide) B s
  unfold runner.run
  rcases ht : timeNow B s with ⟨start, s0⟩
  rw [ht] at a0
  simp only
  by_cases hrepo : r.sourceRepo = ""
  · simp only [hrepo, if_true]
    obtain ⟨evs, h1, h2⟩ := quiet_of_adds B r hK a0
    exact ⟨evs, h1, Or.inl h2⟩
  · simp only [hrepo, if_false]
    have a1 := adds_trans a0 (resolveTempDir_adds _ (by decide) B r s0)
    rcases hd : resolveTempDir B r s0 with ⟨dir, s1⟩
    rw [hd] at a1
    simp only
    have a2 := adds_trans a1 (syncRepo_adds _ (by decide) (by decide) (by decide) B r dir s1)
    rcases hs : syncRepo B r dir s1 with ⟨serr, s2⟩
    rw [hs] at a2
    cases serr with
    | some e =>
      obtain ⟨evs, h1, h2⟩ := quiet_of_adds B r hK a2
      exact ⟨evs, h1, Or.inl h2⟩
    | none =>
      simp only
      have a3 := adds_trans a2 (triggerLoop_adds _ (by decide) (by decide) (by decide)
        (by decide) B r r.triggers.toNat s2)
      rcases htl : triggerLoop B r r.triggers.toNat s2 with ⟨terr, s3⟩
      rw [htl] at a3
      cases terr with
      | some e =>
        obtain ⟨evs, h1, h2⟩ := quiet_of_adds B r hK a3
        exact ⟨evs, h1, Or.inl h2⟩
      | none =>
        simp only
        obtain ⟨pre, hpre, hquiet⟩ := quiet_of_adds B r hK a3
        simp only at hpre
        obtain ⟨evsR, hR, hfR⟩ := riseLoop_shape B r fuel s3
        rcases hrl : riseLoop B r fuel s3 with ⟨exR, s4⟩
        rw [hrl] at hR hfR
        simp only at hR hfR
        cases exR with
        | failed e =>
          simp only [LoopExit.error] at hfR
          obtain ⟨init, ev, hev, hinit, hlast⟩ := hfR
          refine ⟨pre ++ evsR, by rw [hR, hpre, List.append_assoc], Or.inr
            ⟨pre ++ init, ev, e, by rw [hev, List.append_assoc], ?_, hlast, rfl⟩⟩
          intro x hx
          rcases List.mem_append.mp hx with h | h
          · exact hquiet x h
          · exact hinit x h
        | outOfFuel =>
          simp only [LoopExit.error] at hfR
          refine ⟨pre ++ evsR, by rw [hR, hpre, List.append_assoc], Or.inl ?_⟩
          intro x hx
          rcases List.mem_append.mp hx with h | h
          · exact hquiet x h
          · exact hfR x h
        | broke =>
          simp only [LoopExit.error] at hfR
          simp only
          have hq4 : ∀ x ∈ pre ++ evsR, listingError B r x = none := by
            intro x hx
            rcases List.mem_append.mp hx with h | h
            · exact hquiet x h
            · exact hfR x h
          have h4 : s4.trace = s.trace ++ (pre ++ evsR) := by
            rw [hR, hpre, List.append_assoc]
          obtain ⟨evsF, hF, hfF⟩ := fallLoop_shape B r fuel s4
          rcases hfl : fallLoop B r fuel s4 with ⟨exF, s5⟩
          rw [hfl] at hF hfF
          simp only at hF hfF
          cases exF with
          | failed e =>
            simp only [LoopExit.error] at hfF
            obtain ⟨init, ev, hev, hinit, hlast⟩ := hfF
            refine ⟨(pre ++ evsR) ++ evsF, by rw [hF, h4, List.append_assoc], Or.inr
              ⟨(pre ++ evsR) ++ init, ev, e, by rw [hev]; simp, ?_, hlast, rfl⟩⟩
            intro x hx
            rcases List.mem_append.mp hx with h | h
            · exact hq4 x h
            · exact hinit x h
          | outOfFuel =>
            simp only [LoopExit.error] at hfF
            refine ⟨(pre ++ evsR) ++ evsF, by rw [hF, h4, List.append_assoc], Or.inl ?_⟩
            intro x hx
            rcases List.mem_append.mp hx with h | h
            · exact hq4 x h
            · exact hfF x h
          | broke =>
            simp only [LoopExit.error] at hfF
            refine ⟨(pre ++ evsR) ++ evsF ++
              [.now (B.now s5.world).1,
               .log (.elapsed (((B.now s5.world).1 : Int) - (start : Int)))], ?_, Or.inl ?_⟩
            · simp only [timeNow, logLine, St.record, hF, h4, List.append_assoc]
              simp
            · intro x hx
              rcases List.mem_append.mp hx with h | h
              · rcases List.mem_append.mp h with h | h
                · exact hq4 x h
                · exact hfF x h
              · simp only [List.mem_cons, List.mem_singleton, List.not_mem_nil, or_false] at h
                rcases h with rfl | rfl <;> rfl

/-! ## Query errors during polling -/

/-- C7: each call of `getEphemeralRunners` and of `getEphemeralRunnerPods`
records one event, from which `listingError` reads off the error the call
returned (first two parts).  Whenever a listing call made during a run, in
either polling loop, returns an error `e`, because the query failed or
because its output did not decode, that call is the last call of the run (no
further query, sleep, log line or clock reading, so no elapsed time is
reported) and `run` returns `e` (third part). -/
theorem run_aborts_on_listing_error (B : Backend σ) (r : runner) (fuel : Nat) (s : St σ)
    (pre : List Event) (ev : Event) (post : List Event) (e : Err)
    (htrace : (runner.run B r fuel s).2.trace = s.trace ++ pre ++ ev :: post)
    (hfail : listingError B r ev = some e) :
    (∀ s0 : St σ, ∃ ev0,
      (runner.getEphemeralRunners B r s0).2.trace = s0.trace ++ [ev0] ∧
      listingError B r ev0 =
        (match (runner.getEphemeralRunners B r s0).1 with
          | .error e0 => some e0
          | .ok _ => none)) ∧
    (∀ s0 : St σ, ∃ ev0,
      (runner.getEphemeralRunnerPods B r s0).2.trace = s0.trace ++ [ev0] ∧
      listingError B r ev0 =
        (match (runner.getEphemeralRunnerPods B r s0).1 with
          | .error e0 => some e0
          | .ok _ => none)) ∧
    post = [] ∧ (runner.run B r fuel s).1 = .returned (some e) := by
  refine ⟨getEphemeralRunners_listing B r, getEphemeralRunnerPods_listing B r, ?_⟩
  obtain ⟨evs, ht, hshape⟩ := run_listing_shape B r fuel s
  have hevs : evs = pre ++ ev :: post := by
    rw [ht, List.append_assoc] at htrace
    exact List.append_cancel_left htrace
  subst hevs
  rcases hshape with hq | ⟨init, ev0, e0, hsplit, hinit, hlast, hres⟩
  · have := hq ev (by simp)
    rw [hfail] at this
    exact absurd this (by simp)
  · rcases List.eq_nil_or_concat post with rfl | ⟨p1, l, rfl⟩
    · have h2 := List.append_inj' hsplit rfl
      have hev : ev = ev0 := by simpa using h2.2
      subst hev
      rw [hfail] at hlast
      have he : e = e0 := by simpa using hlast
      subst he
      exact ⟨rfl, hres⟩
    · have hsplit2 : (pre ++ ev :: p1) ++ [l] = init ++ [ev0] := by
        rw [← hsplit]; simp
      have h2 := List.append_inj' hsplit2 rfl
      have hmem : ev ∈ init := by rw [← h2.1]; simp
      have := hinit ev hmem
      rw [hfail] at this
      exact absurd this (by simp)

/-! ## The measurement window -/

theorem getEphemeralRunnerPods_ok_last (B : Backend σ) (r : runner) (s s1 : St σ)
    (pods : List pod) (h : runner.getEphemeralRunnerPods B r s = (.ok pods, s1)) :
    ∃ out, s1.trace =
      s.trace ++ [.exec "kubectl" ["get", "pod", "-n", r.runnerNamespace, "-o", "json"] out none] := by
  obtain ⟨out, err, w, heq⟩ := runCommand_eq B "kubectl"
    ["get", "pod", "-n", r.runnerNamespace, "-o", "json"] s
  unfold runner.getEphemeralRunnerPods runner.kubectl at h
  rw [heq] at h
  cases err with
  | some cause => simp at h
  | none =>
    simp only at h
    refine ⟨out, ?_⟩
    cases hu : B.unmarshalPods out with
    | error c => rw [hu] at h; simp at h
    | ok items =>
      rw [hu] at h
      simp only [Prod.mk.injEq] at h
      rw [← h.2]
      rfl

/-- When the fall-edge loop breaks, its last call is a pod query that
succeeded. -/
theorem fallLoop_broke_last (B : Backend σ) (r : runner) (fuel : Nat) : ∀ s s1 : St σ,
    fallLoop B r fuel s = (.broke, s1) →
    ∃ mid out, s1.trace = s.trace ++ mid ++
      [.exec "kubectl" ["get", "pod", "-n", r.runnerNamespace, "-o", "json"] out none] := by
  induction fuel with
  | zero => intro s s1 h; simp [fallLoop] at h
  | succ f ih =>
    intro s s1 h
    unfold fallLoop at h
    have a1 := getEphemeralRunners_adds allKinds (by decide) B r s
    rcases h1 : runner.getEphemeralRunners B r s with ⟨res1, t1⟩
    rw [h1] at h a1
    cases res1 with
    | error e => simp at h
    | ok ers =>
      simp only at h a1
      rcases h2 : runner.getEphemeralRunnerPods B r t1 with ⟨res2, t2⟩
      rw [h2] at h
      cases res2 with
      | error e => simp at h
      | ok pods =>
        simp only at h
        obtain ⟨out, hout⟩ := getEphemeralRunnerPods_ok_last B r t1 t2 pods h2
        obtain ⟨e1, he1, -⟩ := a1
        split at h
        · simp only [Prod.mk.injEq, true_and] at h
          subst h
          exact ⟨e1, out, by rw [hout, he1]⟩
        · obtain ⟨mid, out2, hmid⟩ := ih _ s1 h
          refine ⟨e1 ++ [.exec "kubectl" ["get", "pod", "-n", r.runnerNamespace, "-o", "json"]
            out none] ++ [.log (.observed ers.length pods.length), .log .stillWaiting,
            .sleep 10] ++ mid, out2, ?_⟩
          rw [hmid]
          simp only [sleep, logLine, St.record, hout, he1, List.append_assoc]
          simp

/-- C6, as amended: the start timestamp is the first call of every run, read
before the repository check, the creation of the working directory and the
sync; when the run completes, its last three calls are the pod query on
which the fall-edge loop broke, the reading of the end timestamp and the log
line reporting `end - start`.  The reported duration therefore covers the
sync step as well. -/
theorem run_measures_from_entry (B : Backend σ) (r : runner) (fuel : Nat) (s : St σ) :
    (∃ rest, (runner.run B r fuel s).2.trace = s.trace ++ .now (B.now s.world).1 :: rest) ∧
    ((runner.run B r fuel s).1 = .returned none →
      ∃ mid out stop,
        (runner.run B r fuel s).2.trace =
          s.trace ++ .now (B.now s.world).1 ::
            (mid ++
              [.exec "kubectl" ["get", "pod", "-n", r.runnerNamespace, "-o", "json"] out none,
               .now stop,
               .log (.elapsed ((stop : Int) - ((B.now s.world).1 : Int)))])) := by
  have hstart : timeNow B s = ((B.now s.world).1, s.record (B.now s.world).2
      (.now (B.now s.world).1)) := rfl
  unfold runner.run
  rw [hstart]
  simp only
  generalize hs0 : s.record (B.now s.world).2 (.now (B.now s.world).1) = s0
  have h0 : s0.trace = s.trace ++ [.now (B.now s.world).1] := by rw [← hs0]; rfl
  have close : ∀ t : St σ, Adds allKinds s0 t →
      ∃ rest, t.trace = s.trace ++ .now (B.now s.world).1 :: rest := by
    intro t ⟨evs, ht, _⟩
    exact ⟨evs, by rw [ht, h0]; simp⟩
  by_cases hrepo : r.sourceRepo = ""
  · simp only [hrepo, if_true]
    exact ⟨close s0 (adds_refl _ _), by simp⟩
  · simp only [hrepo, if_false]
    have a1 := resolveTempDir_adds allKinds (by decide) B r s0
    rcases hd : resolveTempDir B r s0 with ⟨dir, s1⟩
    rw [hd] at a1
    simp only at a1 ⊢
    have a2 := adds_trans a1 (syncRepo_adds allKinds (by decide) (by decide) (by decide) B r dir s1)
    rcases hs : syncRepo B r dir s1 with ⟨serr, s2⟩
    rw [hs] at a2
    cases serr with
    | some e => exact ⟨close s2 a2, by simp⟩
    | none =>
      simp only at a2 ⊢
      have a3 := adds_trans a2 (triggerLoop_adds allKinds (by decide) (by decide) (by decide)
        (by decide) B r r.triggers.toNat s2)
      rcases htl : triggerLoop B r r.triggers.toNat s2 with ⟨terr, s3⟩
      rw [htl] at a3
      cases terr with
      | some e => exact ⟨close s3 a3, by simp⟩
      | none =>
        simp only at a3 ⊢
        have a4 := adds_trans a3 (riseLoop_adds allKinds (by decide) (by decide) B r fuel s3)
        rcases hrl : riseLoop B r fuel s3 with ⟨exR, s4⟩
        rw [hrl] at a4
        cases exR with
        | failed e => exact ⟨close s4 a4, by simp⟩
        | outOfFuel => exact ⟨close s4 a4, by simp⟩
        | broke =>
          simp only at a4 ⊢
          have a5 := adds_trans a4
            (fallLoop_adds allKinds (by decide) (by decide) (by decide) B r fuel s4)
          rcases hfl : fallLoop B r fuel s4 with ⟨exF, s5⟩
          rw [hfl] at a5
          cases exF with
          | failed e => exact ⟨close s5 a5, by simp⟩
          | outOfFuel => exact ⟨close s5 a5, by simp⟩
          | broke =>
            simp only at a5 ⊢
            constructor
            · exact close _ (adds_trans a5 (adds_trans (timeNow_adds _ (by decide) B s5)
                (logLine_adds _ (by decide) B _ _)))
            · intro _
              obtain ⟨mid, out, hmid⟩ := fallLoop_broke_last B r fuel s4 s5 hfl
              obtain ⟨e4, he4, -⟩ := a4
              refine ⟨e4 ++ mid, out, (B.now s5.world).1, ?_⟩
              simp only [timeNow, logLine, St.record, hmid, he4, h0, List.append_assoc]
              simp

/-! ## Runs on concrete inputs -/

/-- Witness for C5.  With a `git` budget of 5 the clone and the first mutation
succeed and the commit of the second mutation fails: `run` returns that
error after exactly two calls and no query.  With a budget of 100 both
mutations succeed and the run makes exactly two calls. -/
theorem run_trigger_phase_witness :
    demoRunner.sourceRepo ≠ "" ∧
    triggerLoop toySim demoRunner 1
        (syncRepo toySim demoRunner "/work"
          (timeNow toySim ⟨{ demoWorld with gitBudget := 5 }, []⟩).2).2 =
      (none,
        (triggerLoop toySim demoRunner 1
          (syncRepo toySim demoRunner "/work"
            (timeNow toySim ⟨{ demoWorld with gitBudget := 5 }, []⟩).2).2).2) ∧
    (runner.run toySim demoRunner 3 ⟨{ demoWorld with gitBudget := 5 }, []⟩ =
        (.returned (some (.command "git" "-C" "exit status 128" "fatal")),
          (runner.run toySim demoRunner 3 ⟨{ demoWorld with gitBudget := 5 }, []⟩).2) ∧
      countKind .read
          (runner.run toySim demoRunner 3 ⟨{ demoWorld with gitBudget := 5 }, []⟩).2.trace =
        countKind .read [] + (1 + 1) ∧
      countKind .query
          (runner.run toySim demoRunner 3 ⟨{ demoWorld with gitBudget := 5 }, []⟩).2.trace =
        countKind .query []) ∧
    countKind .read
        (runner.run toySim demoRunner 3
          ⟨{ demoWorld with replies := scriptOf [("r1", ""), ("", "")] }, []⟩).2.trace =
      countKind .read [] + demoRunner.triggers.toNat :=
  ⟨by decide, rfl,
    (run_trigger_phase toySim demoRunner 3 ⟨{ demoWorld with gitBudget := 5 }, []⟩
      (syncRepo toySim demoRunner "/work"
        (timeNow toySim ⟨{ demoWorld with gitBudget := 5 }, []⟩).2).2
      (by decide) rfl).2.2 1 (.command "git" "-C" "exit status 128" "fatal")
      (triggerLoop toySim demoRunner 1
        (syncRepo toySim demoRunner "/work"
          (timeNow toySim ⟨{ demoWorld with gitBudget := 5 }, []⟩).2).2).2
      (runner.run toySim demoRunner 3 ⟨{ demoWorld with gitBudget := 5 }, []⟩).2
      (by decide) rfl rfl,
    (run_trigger_phase toySim demoRunner 3
      ⟨{ demoWorld with replies := scriptOf [("r1", ""), ("", "")] }, []⟩
      (syncRepo toySim demoRunner "/work"
        (timeNow toySim
          ⟨{ demoWorld with replies := scriptOf [("r1", ""), ("", "")] }, []⟩).2).2
      (by decide) rfl).2.1 (by
        intro k sk hk h
        have hk2 : k < 2 := hk
        interval_cases k
        · have h2 := congrArg Prod.snd h
          simp only at h2
          rw [← h2]
          rfl
        · have h2 := congrArg Prod.snd h
          simp only at h2
          rw [← h2]
          rfl)⟩

/-- Witness for C7: a runner listing that does not decode in the second
iteration of the fall-edge loop, and a pod query that fails in the second
iteration of the rise-edge loop. -/
theorem run_aborts_on_listing_error_witness :
    listingError toySim { demoRunner with triggers := 1 }
        (.exec "kubectl" ["get", "ephemeralrunner", "-n", "arc-runners", "-o", "json"] "!" none) =
      some (.unmarshalRunners "invalid character") ∧
    (([] : List Event) = [] ∧
      (runner.run toySim { demoRunner with triggers := 1 } 3
        ⟨{ demoWorld with
            replies := scriptOf [("r1", "p1"), ("r1", "p1")] ++ [("!", none)] }, []⟩).1 =
        .returned (some (.unmarshalRunners "invalid character"))) ∧
    listingError toySim { demoRunner with triggers := 1 }
        (.exec "kubectl" ["get", "pod", "-n", "arc-runners", "-o", "json"] ""
          (some "script exhausted")) =
      some (.command "kubectl" "get" "script exhausted" "") ∧
    (([] : List Event) = [] ∧
      (runner.run toySim { demoRunner with triggers := 1 } 3
        ⟨{ demoWorld with replies := scriptOf [("", "")] ++ [("", none)] }, []⟩).1 =
        .returned (some (.command "kubectl" "get" "script exhausted" ""))) :=
  ⟨rfl,
    (run_aborts_on_listing_error toySim { demoRunner with triggers := 1 } 3
      ⟨{ demoWorld with replies := scriptOf [("r1", "p1"), ("r1", "p1")] ++ [("!", none)] }, []⟩
      (runner.run toySim { demoRunner with triggers := 1 } 3
        ⟨{ demoWorld with
            replies := scriptOf [("r1", "p1"), ("r1", "p1")] ++ [("!", none)] },
          []⟩).2.trace.dropLast
      (.exec "kubectl" ["get", "ephemeralrunner", "-n", "arc-runners", "-o", "json"] "!" none)
      [] (.unmarshalRunners "invalid character") rfl rfl).2.2,
    rfl,
    (run_aborts_on_listing_error toySim { demoRunner with triggers := 1 } 3
      ⟨{ demoWorld with replies := scriptOf [("", "")] ++ [("", none)] }, []⟩
      (runner.run toySim { demoRunner with triggers := 1 } 3
        ⟨{ demoWorld with replies := scriptOf [("", "")] ++ [("", none)] }, []⟩).2.trace.dropLast
      (.exec "kubectl" ["get", "pod", "-n", "arc-runners", "-o", "json"] ""
        (some "script exhausted"))
      [] (.command "kubectl" "get" "script exhausted" "") rfl rfl).2.2⟩

/-- C6 as stated fails: in this run (one trigger, a runner and no pod listed
at the first poll, nothing listed at the second) the only clock readings are
the first call, made before the working directory is created and the
repository cloned, and the one after the fall-edge loop.  No clock is read
between the clone and the first mutation, and the reported duration, 24
ticks, contains the 5 ticks of the clone. -/
theorem run_reads_start_before_sync :
    runner.run toySim { demoRunner with triggers := 1 } 3
      ⟨{ demoWorld with replies := scriptOf [("r1", ""), ("", "")] }, []⟩ =
      (.returned none,
        ⟨{ demoWorld with
            clock := 24, files := [("/work/trigger.txt", "1")], gitBudget := 96 },
         [.now 0,
          .mkdirAll "/work" none,
          .stat "/work/.git" false,
          .log (.clone "git@example.com:o/r.git" "/work"),
          .exec "git" ["clone", "git@example.com:o/r.git", "/work"] "" none,
          .log (.trigger "trigger.txt"),
          .readFile "/work/trigger.txt" .notExist,
          .writeFile "/work/trigger.txt" "1" none,
          .exec "git" ["-C", "/work", "add", "trigger.txt"] "" none,
          .exec "git" ["-C", "/work", "commit", "-m", "Update trigger.txt"] "" none,
          .exec "git" ["-C", "/work", "push"] "" none,
          .exec "kubectl" ["get", "ephemeralrunner", "-n", "arc-runners", "-o", "json"] "r1" none,
          .exec "kubectl" ["get", "pod", "-n", "arc-runners", "-o", "json"] "" none,
          .exec "kubectl" ["get", "ephemeralrunner", "-n", "arc-runners", "-o", "json"] "" none,
          .exec "kubectl" ["get", "pod", "-n", "arc-runners", "-o", "json"] "" none,
          .now 24,
          .log (.elapsed 24)]⟩) ∧
    (timeNow toySim ⟨{ demoWorld with replies := scriptOf [("r1", ""), ("", "")] }, []⟩).1 = 0 ∧
    (syncRepo toySim { demoRunner with triggers := 1 } "/work"
      (timeNow toySim
        ⟨{ demoWorld with replies := scriptOf [("r1", ""), ("", "")] }, []⟩).2).2.world.clock = 5 :=
  ⟨rfl, rfl, rfl⟩

/-- C1 fails on the code: with one ephemeral runner listed and no pod, the
fall-edge loop breaks in its first iteration, without sleeping or polling
again, although a listing is non-empty. -/
theorem fallLoop_breaks_with_runner_listed :
    toyRunners "r1" = .ok [⟨"r1"⟩] ∧ toyPods "" = .ok [] ∧
    fallLoop toySim demoRunner 3 ⟨{ demoWorld with replies := scriptOf [("r1", "")] }, []⟩ =
      (.broke,
        ⟨{ demoWorld with clock := 2 },
         [.exec "kubectl" ["get", "ephemeralrunner", "-n", "arc-runners", "-o", "json"] "r1" none,
          .exec "kubectl" ["get", "pod", "-n", "arc-runners", "-o", "json"] "" none]⟩) :=
  ⟨rfl, rfl, rfl⟩

/-- C10 fails on the code: when no working directory is configured, the sync
step creates and clones into `/tmp/arcbench/<timestamp>`, while the trigger
phase reads and writes `trigger.txt` relative to the current directory and
runs `git -C ""`, that is, in the current directory. -/
theorem run_mutates_outside_synced_dir :
    (runner.run toySim { demoRunner with triggers := 1, tempDir := "" } 3
      ⟨{ demoWorld with replies := scriptOf [("r1", "p1"), ("", "")] }, []⟩).2.trace =
      [.now 0,
       .now 0,
       .mkdirAll "/tmp/arcbench/0" none,
       .stat "/tmp/arcbench/0/.git" false,
       .log (.clone "git@example.com:o/r.git" "/tmp/arcbench/0"),
       .exec "git" ["clone", "git@example.com:o/r.git", "/tmp/arcbench/0"] "" none,
       .log (.trigger "trigger.txt"),
       .readFile "trigger.txt" .notExist,
       .writeFile "trigger.txt" "1" none,
       .exec "git" ["-C", "", "add", "trigger.txt"] "" none,
       .exec "git" ["-C", "", "commit", "-m", "Update trigger.txt"] "" none,
       .exec "git" ["-C", "", "push"] "" none,
       .exec "kubectl" ["get", "ephemeralrunner", "-n", "arc-runners", "-o", "json"] "r1" none,
       .exec "kubectl" ["get", "pod", "-n", "arc-runners", "-o", "json"] "p1" none,
       .exec "kubectl" ["get", "ephemeralrunner", "-n", "arc-runners", "-o", "json"] "" none,
       .exec "kubectl" ["get", "pod", "-n", "arc-runners", "-o", "json"] "" none,
       .now 24,
       .log (.elapsed 24)] :=
  rfl

end Arcbench
